import Mathlib

/-!
Verification development for the Idea Tinder feed-ingestion pipeline and
protocol (MCP) tool server.

The definitions below are a shallow embedding of the repository's
TypeScript sources: `ingest.ts` (RSS fetch, dedup-by-URL, fan-out,
retention sweep), the standalone MCP server, and the main server's
schema and in-process MCP tool dispatcher (`executeTool`).  SQLite
tables become lists of rows, timestamps become integers (milliseconds
since epoch; SQLite's ISO datetime strings compare lexicographically in
the same order), and each SQL statement is translated into an explicit
pure function on a `DB` state.  Regex extraction of the four per-item
fields is taken as an input (`ItemExtract`); everything downstream of
extraction is modelled from the source.
-/

namespace IdeaTinder

/-! ### String helpers

SQLite `LIKE` is case-insensitive for ASCII; JavaScript
`String.prototype.includes` and `toLowerCase` are modelled on character
lists.  `Char.toLower` lowers exactly the ASCII uppercase range, which
matches SQLite's ASCII-only case folding.
-/

/-- Whether `pat` occurs at the head of `l`. -/
def leadMatch : List Char → List Char → Bool
  | [], _ => true
  | _ :: _, [] => false
  | a :: as, b :: bs => a == b && leadMatch as bs

/-- Whether `pat` occurs as a contiguous run anywhere in `l`. -/
def occursIn (pat : List Char) : List Char → Bool
  | [] => leadMatch pat []
  | l@(_ :: rest) => leadMatch pat l || occursIn pat rest

/-- ASCII lowering of a string, as a character list. -/
def lowerOf (s : String) : List Char := s.toList.map Char.toLower

/-- JavaScript `s.includes(pat)`. -/
def containsSub (s pat : String) : Bool := occursIn pat.toList s.toList

/-- One step of `%` matching: try the rest of the pattern at every
suffix of the string. -/
def likeTails (f : List Char → Bool) : List Char → Bool
  | [] => f []
  | l@(_ :: rest) => f l || likeTails f rest

/-- SQLite `LIKE` pattern matching on (case-folded) character lists:
`%` matches any run of characters (including none), `_` matches exactly
one character, any other character matches itself. -/
def likeChars : List Char → List Char → Bool
  | [] => fun s => s.isEmpty
  | c :: ps =>
    if c = '%' then likeTails (likeChars ps)
    else fun s =>
      match s with
      | [] => false
      | d :: r => (if c = '_' then true else c == d) && likeChars ps r

/-- SQLite `s LIKE '%q%'` exactly as the source binds it: the query is
spliced between two `%` with no `ESCAPE` clause, so `%` and `_` inside
the query act as live wildcards; comparison is ASCII case-insensitive
(both sides folded).  For a query free of `%` and `_` this coincides
with case-insensitive substring containment. -/
def likeMatch (q s : String) : Bool :=
  likeChars ('%' :: (lowerOf q ++ ['%'])) (lowerOf s)

/-! ### Feed Source Reader (`fetchRSS` in `ingest.ts`) -/

/-- A normalized feed item, interface `RSSItem` in `ingest.ts`.
`pubDate` is the parsed publish time in milliseconds; `none` when the
item block carried no `pubDate`/`published`/`updated` tag (the source
keeps the field `undefined`, never defaulting it). -/
structure RSSItem where
  title : String
  link : String
  description : String
  pubDate : Option Int
deriving DecidableEq

/-- The per-block results of the four independent regex extractions in
`fetchRSS` (one `<item>`/`<entry>` block).  `title`, `link` and
`description` are the decoded, trimmed, truncated strings, `""` when the
corresponding pattern found nothing (`titleMatch ? ... : ""` in the
source); `pubDate` is `none` when the date pattern found nothing. -/
structure ItemExtract where
  title : String
  link : String
  description : String
  pubDate : Option Int
deriving DecidableEq

/-- Lines 130-132 of `ingest.ts`: a parsed block becomes an item exactly
when both `title` and `link` are non-empty (JavaScript string
truthiness); the publish date is carried over unchanged, absent stays
absent. -/
def buildItem (title link description : String) (pubDate : Option Int) : Option RSSItem :=
  if title ≠ "" ∧ link ≠ "" then some ⟨title, link, description, pubDate⟩ else none

/-- The item sequence assembled by the parsing loop of `fetchRSS`. -/
def parseItems (blocks : List ItemExtract) : List RSSItem :=
  blocks.filterMap (fun b => buildItem b.title b.link b.description b.pubDate)

/-- The environment's answer to one feed fetch: either the `fetch` call
raised (network error, or the 15-second `AbortSignal` timeout), or an
HTTP response arrived with some status and a body whose regex scan
produced the given blocks (a malformed or non-feed body produces no
blocks). -/
inductive FetchOutcome where
  | failure (err : String)
  | response (status : Nat) (blocks : List ItemExtract)
deriving DecidableEq

/-- `fetchRSS` in `ingest.ts`: the whole body is wrapped in
`try ... catch`, so the function always returns a list — an exception or
a non-2xx status (`response.ok` is status 200-299) yields `[]` with the
cause logged.  The second component collects the `console.log` lines
recording the cause. -/
def fetchRSS : FetchOutcome → List RSSItem × List String
  | .failure err => ([], ["✗ Error fetching: " ++ err])
  | .response status blocks =>
    if 200 ≤ status ∧ status < 300 then (parseItems blocks, [])
    else ([], ["⚠ HTTP " ++ toString status])

/-! ### Scheduler candidate pipeline (`ingest`, lines 227-236) -/

/-- Milliseconds in 24 hours, `24 * 60 * 60 * 1000` in the source. -/
def dayMs : Int := 24 * 60 * 60 * 1000

/-- The sort comparator of the ingestion loop: `0` when either publish
date is missing, otherwise `b.pubDate - a.pubDate` (descending). -/
def cmpItems (a b : RSSItem) : Int :=
  match a.pubDate, b.pubDate with
  | some ta, some tb => tb - ta
  | _, _ => 0

/-- A deterministic sort consistent with the source comparator (the
JavaScript engine's `Array.prototype.sort` is some comparator-consistent
reordering; insertion sort is one). -/
def sortItemsDesc (l : List RSSItem) : List RSSItem :=
  List.insertionSort (fun a b => cmpItems a b ≤ 0) l

/-- First filter of the loop, `item.title && item.link`. -/
def hasTitleAndLink (it : RSSItem) : Bool :=
  decide (it.title ≠ "" ∧ it.link ≠ "")

/-- Second filter, `item.pubDate && item.pubDate.getTime() > oneDayAgo`
with `oneDayAgo = Date.now() - 24*60*60*1000`: an item with no publish
date is excluded, never defaulted in. -/
def isRecent (now : Int) (it : RSSItem) : Bool :=
  match it.pubDate with
  | some t => decide (now - dayMs < t)
  | none => false

/-- The candidate set of one feed before sorting and capping. -/
def candidateItems (now : Int) (items : List RSSItem) : List RSSItem :=
  (items.filter hasTitleAndLink).filter (isRecent now)

/-- `sortedItems` in the source: filter to the last 24 hours, sort by
publish time descending, `.slice(0, 10)`. -/
def sortedCandidates (now : Int) (items : List RSSItem) : List RSSItem :=
  (sortItemsDesc (candidateItems now items)).take 10

/-! ### Store model

One row per SQLite row.  The `ideas` table is the schema created by the
main server (with the `published_at` column the ingestion insert binds;
schema bootstrapping/migration is an external collaborator).  Note the
schema declares NO uniqueness constraint on `ideas.url`; `user_pending`
has `UNIQUE(user_id, idea_id)` and `swipes` has
`UNIQUE(user_id, idea_id)`.
-/

/-- A row of the global `ideas` table. -/
structure IdeaRow where
  id : Nat
  title : String
  source : String
  summary : String
  url : Option String
  category : Option String
  sourceFeed : Option String
  contentType : String
  publishedAt : Option Int
  ingestedAt : Int
deriving DecidableEq

/-- A row of `user_pending` (the per-subscriber fan-out queue). -/
structure PendingRow where
  userId : Nat
  ideaId : Nat
  addedAt : Int
deriving DecidableEq

/-- A row of `swipes` (decision records). -/
structure SwipeRow where
  userId : Nat
  ideaId : Nat
  direction : String
  feedback : Option String
  swipedAt : Int
deriving DecidableEq

/-- A row of `user_feeds` (feed subscriptions). -/
structure FeedRow where
  userId : Nat
  url : String
  name : String
  category : String
  enabled : Bool
  lastFetched : Option Int
  lastError : Option String
deriving DecidableEq

/-- The persisted store.  `nextIdeaId` is the AUTOINCREMENT counter of
the `ideas` table (SQLite row ids start at 1). -/
structure DB where
  nextIdeaId : Nat
  ideas : List IdeaRow
  pending : List PendingRow
  swipes : List SwipeRow
  feeds : List FeedRow
deriving DecidableEq

/-- Well-formedness of the store for the purposes of the ingestion
model: the AUTOINCREMENT counter and every existing idea id are
positive (SQLite row ids start at 1; the source's
`result?.id || null` treats id 0 as "not found"). -/
def WFdb (db : DB) : Prop :=
  0 < db.nextIdeaId ∧ ∀ r ∈ db.ideas, 0 < r.id

/-! ### Ingestion helpers (`ingest.ts`) -/

/-- `SELECT id FROM ideas WHERE url = ?` over a row list (first matching
row), then `result?.id || null` — a JavaScript-falsy id (0) also maps to
null. -/
def findIdeaIdByUrl (ideas : List IdeaRow) (url : String) : Option Nat :=
  match ideas.find? (fun r => decide (r.url = some url)) with
  | some r => if r.id = 0 then none else some r.id
  | none => none

/-- `ideaExistsByUrl` in `ingest.ts`. -/
def ideaExistsByUrl (db : DB) (url : String) : Option Nat :=
  findIdeaIdByUrl db.ideas url

/-- `inferContentType` in `ingest.ts`. -/
def inferContentType (url source : String) : String :=
  if containsSub url "youtube.com" || containsSub url "youtu.be" then "video"
  else if containsSub url "arxiv.org" || containsSub url "/paper" then "paper"
  else if occursIn "changelog".toList (lowerOf source) || containsSub url "/changelog" then
    "changelog"
  else if containsSub url "/releases/" || containsSub url "/release/" then "release"
  else "article"

/-- `insertIdea`: a plain `INSERT INTO ideas ...` followed by
`last_insert_rowid()`.  The created table has no uniqueness constraint
on `url`, so the insert succeeds even when a row with the same url is
already present; there is no `ON CONFLICT` clause and no transaction
around the caller's check-then-insert.  (The `catch` branch of the
source fires only on database I/O errors, outside this model; all NOT
NULL columns are always bound.) -/
def insertIdea (db : DB) (title source summary url category sourceFeed : String)
    (publishedAt : Option Int) (now : Int) : DB × Nat :=
  let row : IdeaRow :=
    { id := db.nextIdeaId, title := title, source := source, summary := summary,
      url := some url, category := some category, sourceFeed := some sourceFeed,
      contentType := inferContentType url source, publishedAt := publishedAt,
      ingestedAt := now }
  ({ db with nextIdeaId := db.nextIdeaId + 1, ideas := db.ideas ++ [row] }, db.nextIdeaId)

/-- Whether a `user_pending` row list holds the pair. -/
def pendingHasL (pending : List PendingRow) (userId ideaId : Nat) : Bool :=
  pending.any (fun p => p.userId == userId && p.ideaId == ideaId)

/-- Whether `user_pending` holds the pair. -/
def pendingHas (db : DB) (userId ideaId : Nat) : Bool :=
  pendingHasL db.pending userId ideaId

/-- `addToUserPending`: `INSERT OR IGNORE INTO user_pending` — the
`UNIQUE(user_id, idea_id)` constraint turns a duplicate insert into a
no-op. -/
def addToUserPending (db : DB) (userId ideaId : Nat) (now : Int) : DB :=
  if pendingHas db userId ideaId then db
  else { db with pending := db.pending ++ [⟨userId, ideaId, now⟩] }

/-- One entry of the scheduler's fetch set: a unique feed url, its
display data, the subscribers wanting it, and the environment's fetch
outcome for this pass. -/
structure FeedFetch where
  url : String
  name : String
  category : String
  userIds : List Nat
  outcome : FetchOutcome

/-- The body of the per-item loop in `ingest` (lines 241-273): resolve
the idea by url or insert it, then `INSERT OR IGNORE` one pending row
per subscriber of the feed. -/
def processItem (feed : FeedFetch) (now : Int) (db : DB) (item : RSSItem) : DB :=
  let resolved : DB × Nat :=
    match ideaExistsByUrl db item.link with
    | some i => (db, i)
    | none =>
      insertIdea db item.title feed.name
        (if item.description = "" then
          "New update from " ++ feed.name ++ ". Click to read more."
         else item.description)
        item.link feed.category feed.url item.pubDate now
  feed.userIds.foldl (fun d u => addToUserPending d u resolved.2 now) resolved.1

/-- `UPDATE user_feeds SET last_fetched = CURRENT_TIMESTAMP WHERE url = ?`
(the zero-items branch: every subscription of the url, any user). -/
def markFetched (db : DB) (url : String) (now : Int) : DB :=
  { db with feeds := db.feeds.map (fun f =>
      if f.url = url then { f with lastFetched := some now } else f) }

/-- `UPDATE user_feeds SET last_fetched = CURRENT_TIMESTAMP, last_error = NULL WHERE url = ?`
(the end of a successful feed iteration). -/
def markFetchedClearErr (db : DB) (url : String) (now : Int) : DB :=
  { db with feeds := db.feeds.map (fun f =>
      if f.url = url then { f with lastFetched := some now, lastError := none } else f) }

/-- One iteration of the feed loop in `ingest`: fetch; on zero items
record the fetch attempt time and continue (`continue`), otherwise
process the capped candidate list and then record fetch time clearing
the error. -/
def feedStep (now : Int) (db : DB) (feed : FeedFetch) : DB :=
  let items := (fetchRSS feed.outcome).1
  if items.isEmpty then markFetched db feed.url now
  else
    let db1 := (sortedCandidates now items).foldl (processItem feed now) db
    markFetchedClearErr db1 feed.url now

/-- The sequential feed loop of one ingestion pass. -/
def ingestLoop (now : Int) (feeds : List FeedFetch) (db : DB) : DB :=
  feeds.foldl (feedStep now) db

/-- Milliseconds in 7 days, the retention horizon. -/
def sevenDaysMs : Int := 7 * dayMs

/-- Whether a decision record exists for the pair. -/
def hasSwipe (db : DB) (userId ideaId : Nat) : Bool :=
  db.swipes.any (fun s => s.userId == userId && s.ideaId == ideaId)

/-- The WHERE clause of the cleanup `DELETE`: older than 7 days and no
corresponding swipe for the same (user, idea) pair. -/
def staleUnswiped (db : DB) (now : Int) (p : PendingRow) : Bool :=
  decide (p.addedAt < now - sevenDaysMs) && !hasSwipe db p.userId p.ideaId

/-- The cleanup step of `ingest` (lines 283-292): delete stale undecided
queue entries and report `deleted.changes`, the number of rows
removed. -/
def pruneStale (db : DB) (now : Int) : DB × Nat :=
  ({ db with pending := db.pending.filter (fun p => !staleUnswiped db now p) },
   (db.pending.filter (staleUnswiped db now)).length)

/-- One full ingestion pass: the sequential feed loop followed by the
retention sweep. -/
def ingestPass (now : Int) (feeds : List FeedFetch) (db : DB) : DB :=
  (pruneStale (ingestLoop now feeds db) now).1

/-- The publish-time key an all-dated item list is ordered by
(descending); items reaching the sort all carry a date, the `getD`
default is never exercised there. -/
def pubKey (it : RSSItem) : Int := it.pubDate.getD 0

/-- Whether, in the given `ideas`/`user_pending` state, an item link is
fully distributed: it resolves to an idea id and every listed subscriber
already has the pending pair. -/
def settledL (ideas : List IdeaRow) (pending : List PendingRow)
    (users : List Nat) (link : String) : Bool :=
  match findIdeaIdByUrl ideas link with
  | some i => users.all (fun u => pendingHasL pending u i)
  | none => false

/-- `settledL` on a store. -/
def settledB (db : DB) (users : List Nat) (link : String) : Bool :=
  settledL db.ideas db.pending users link

/-- The candidate items one pass derives from a feed's fetch outcome. -/
def candsOf (now : Int) (f : FeedFetch) : List RSSItem :=
  sortedCandidates now (fetchRSS f.outcome).1

/-- One interleaving of two concurrent `resolveOrCreate` executions for
the same url (each is `ideaExistsByUrl` then `insertIdea`, lines 243-258
of `ingest.ts`): both check before either inserts.  The two callers run
in separate processes (the cron `ingest` pass and the server's
`ingestForUser` refresh share the SQLite file) and no transaction spans
the check and the insert, so this schedule is realizable; each single
statement is serialized by SQLite, which is what the two-step model
reflects. -/
def racedResolveOrCreate (title source summary url category sourceFeed : String)
    (publishedAt : Option Int) (now : Int) (db : DB) : DB :=
  let a := ideaExistsByUrl db url
  let b := ideaExistsByUrl db url
  let db1 := if a = none then
      (insertIdea db title source summary url category sourceFeed publishedAt now).1
    else db
  if b = none then
    (insertIdea db1 title source summary url category sourceFeed publishedAt now).1
  else db1

/-! ### Protocol tool server

The tool bodies of the main server's in-process MCP dispatcher
(`executeTool` in `server.ts`), which receives the token-resolved user
(`mcpUser`) of the session.  `handleListSaved` additionally embeds the
`list_saved_ideas` arm of the standalone MCP server's `handleToolCall`,
which differs in its limit handling.
-/

/-- One row of the saved-ideas join
(`ideas i JOIN swipes s ON i.id = s.idea_id WHERE s.user_id = ? AND
s.direction = 'right'`), as selected by `executeTool`; the standalone
server's query selects the same columns minus `i.id`. -/
structure SavedRow where
  ideaId : Nat
  title : String
  source : String
  summary : String
  url : Option String
  category : Option String
  contentType : String
  hotTake : Option String
  swipedAt : Int
deriving DecidableEq

/-- The `JOIN` of one swipe row against the `ideas` table by
`i.id = s.idea_id`: no row when the idea is missing. -/
def joinSwipe (ideas : List IdeaRow) (s : SwipeRow) : Option SavedRow :=
  (ideas.find? (fun i => i.id == s.ideaId)).map (fun i =>
    { ideaId := i.id, title := i.title, source := i.source, summary := i.summary,
      url := i.url, category := i.category, contentType := i.contentType,
      hotTake := s.feedback, swipedAt := s.swipedAt })

/-- The saved-ideas join for one subscriber, one row per right-swipe
whose idea row exists. -/
def savedRows (db : DB) (uid : Nat) : List SavedRow :=
  db.swipes.filterMap (fun s =>
    if s.userId = uid ∧ s.direction = "right" then joinSwipe db.ideas s else none)

/-- `ORDER BY s.swiped_at DESC` (a deterministic order consistent with
the SQL ordering). -/
def sortSavedDesc (l : List SavedRow) : List SavedRow :=
  List.insertionSort (fun a b => b.swipedAt ≤ a.swipedAt) l

/-- SQLite `LIMIT n`: a negative limit means "no limit". -/
def sqlLimit {α : Type} (n : Int) (l : List α) : List α :=
  if n < 0 then l else l.take n.toNat

/-- The search predicate:
`i.title LIKE ? OR i.summary LIKE ? OR s.feedback LIKE ?` with pattern
`%query%`.  A NULL `feedback` makes its `LIKE` NULL, hence not a
match. -/
def rowMatches (q : String) (r : SavedRow) : Bool :=
  likeMatch q r.title || likeMatch q r.summary ||
    (match r.hotTake with | some f => likeMatch q f | none => false)

/-- JavaScript truthiness of an optional string argument: absent and
`""` are both falsy. -/
def strTruthy : Option String → Bool
  | some s => !(s == "")
  | none => false

/-- JavaScript `v || d` on an optional string. -/
def strOr (v : Option String) (d : String) : String :=
  match v with
  | some s => if s = "" then d else s
  | none => d

/-- JavaScript `v || null` on an optional string. -/
def strOrNull (v : Option String) : Option String :=
  match v with
  | some s => if s = "" then none else some s
  | none => none

/-- The category argument as used by both list tools: `if (category)`
activates the extra `AND i.category = ?` clause only for a truthy
(non-empty, present) value. -/
def catFilterActive : Option String → Option String
  | some c => if c = "" then none else some c
  | none => none

/-- `Math.min(Math.max(parseInt(args?.limit) || 10, 1), 50)` in
`executeTool`: an absent or unparseable limit gives NaN and 0 is falsy,
both defaulting to 10; the result is clamped to [1, 50]. -/
def clampLimit (limitArg : Option Int) : Int :=
  let base : Int := match limitArg with
    | some n => if n = 0 then 10 else n
    | none => 10
  min (max base 1) 50

/-- The `list_saved_ideas` query for an already-computed SQL `LIMIT`
value. -/
def listSavedQuery (db : DB) (uid : Nat) (limit : Int) (category : Option String) :
    List SavedRow :=
  let base := savedRows db uid
  let filtered := match catFilterActive category with
    | some c => base.filter (fun r => decide (r.category = some c))
    | none => base
  sqlLimit limit (sortSavedDesc filtered)

/-- The `search_ideas` query: filter, newest decision first, `LIMIT 20`. -/
def searchSavedQuery (db : DB) (uid : Nat) (q : String) : List SavedRow :=
  sqlLimit 20 (sortSavedDesc ((savedRows db uid).filter (rowMatches q)))

/-- The `get_preferences` aggregate: (total swipes, saved, dismissed)
for the subscriber.  (SQL `SUM` over zero rows is NULL; modelled as
0.) -/
def prefsStats (db : DB) (uid : Nat) : Nat × Nat × Nat :=
  let mine := db.swipes.filter (fun s => s.userId == uid)
  (mine.length, (mine.filter (fun s => s.direction == "right")).length,
   (mine.filter (fun s => s.direction == "left")).length)

/-- The `GROUP BY i.category ... ORDER BY count DESC` of
`get_preferences`: category of each right-swiped idea, counted, sorted
by count descending (a deterministic order consistent with the SQL
ordering). -/
def favCats (db : DB) (uid : Nat) : List (Option String × Nat) :=
  let cs := (savedRows db uid).map (fun r => r.category)
  List.insertionSort (fun a b => b.2 ≤ a.2) (cs.dedup.map (fun c => (c, cs.count c)))

/-- Arguments of `add_idea`. -/
structure AddArgs where
  title : Option String
  source : Option String
  summary : Option String
  url : Option String
  category : Option String
deriving DecidableEq

/-- A `tools/call` request, after JSON decoding of `params.arguments`. -/
inductive ToolCall where
  | listSaved (limitArg : Option Int) (category : Option String)
  | searchIdeas (query : Option String)
  | getPrefs
  | addIdea (args : AddArgs)
deriving DecidableEq

/-- The structured result object a tool arm returns (it is then
JSON-encoded into the `content` text). -/
inductive ToolOut where
  | ideasOut (ideas : List SavedRow) (count : Nat)
  | searchOut (ideas : List SavedRow) (count : Nat) (query : String)
  | prefsOut (total saved dismissed : Nat) (cats : List (Option String × Nat))
      (email : String) (uname : Option String)
  | addedOut (message : String)
  | errOut (msg : String)
deriving DecidableEq

/-- `executeTool` of the main server: every query is scoped to
`mcpUser.id` (here `uid`, with the session user's `email`/`name` passed
alongside); `add_idea` is the only arm that writes, and it writes only
the global `ideas` table. -/
def executeTool (db : DB) (uid : Nat) (email : String) (uname : Option String)
    (now : Int) : ToolCall → DB × ToolOut
  | .listSaved limitArg category =>
    let rows := listSavedQuery db uid (clampLimit limitArg) category
    (db, .ideasOut rows rows.length)
  | .searchIdeas query =>
    let q := query.getD ""
    if q = "" then (db, .errOut "Query is required")
    else
      let rows := searchSavedQuery db uid q
      (db, .searchOut rows rows.length q)
  | .getPrefs =>
    let stats := prefsStats db uid
    (db, .prefsOut stats.1 stats.2.1 stats.2.2 (favCats db uid) email uname)
  | .addIdea args =>
    if !strTruthy args.title || !strTruthy args.source || !strTruthy args.summary then
      (db, .errOut "title, source, and summary are required")
    else
      let row : IdeaRow :=
        { id := db.nextIdeaId, title := args.title.getD "", source := args.source.getD "",
          summary := args.summary.getD "", url := strOrNull args.url,
          category := some (strOr args.category "custom"), sourceFeed := some "mcp",
          contentType := "article", publishedAt := none, ingestedAt := now }
      ({ db with nextIdeaId := db.nextIdeaId + 1, ideas := db.ideas ++ [row] },
       .addedOut "Idea added to your queue")

/-- The `list_saved_ideas` arm of the standalone MCP server's
`handleToolCall`: `const limit = args?.limit || 10` — the limit is
passed straight into `LIMIT ?` with NO clamp to 50 (its `SELECT` omits
`i.id`; the modelled rows carry the id harmlessly). -/
def handleListSaved (db : DB) (uid : Nat) (limitArg : Option Int)
    (category : Option String) : List SavedRow :=
  let limit : Int := match limitArg with
    | some n => if n = 0 then 10 else n
    | none => 10
  listSavedQuery db uid limit category

/-! ### General helper lemmas -/

/-- `hasSwipe` as a proposition. -/
theorem hasSwipe_iff (db : DB) (u i : Nat) :
    hasSwipe db u i = true ↔ ∃ s ∈ db.swipes, s.userId = u ∧ s.ideaId = i := by
  simp [hasSwipe, List.any_eq_true, Bool.and_eq_true, beq_iff_eq]

/-- `staleUnswiped` as a proposition. -/
theorem staleUnswiped_iff (db : DB) (now : Int) (p : PendingRow) :
    staleUnswiped db now p = true ↔
      p.addedAt < now - sevenDaysMs ∧
        ¬∃ s ∈ db.swipes, s.userId = p.userId ∧ s.ideaId = p.ideaId := by
  rw [staleUnswiped, Bool.and_eq_true, decide_eq_true_iff, Bool.not_eq_true',
    ← Bool.not_eq_true, hasSwipe_iff]

/-- Partition count: kept plus removed rows make up the original
table. -/
theorem length_filter_partition {α : Type} (p : α → Bool) (l : List α) :
    (l.filter p).length + (l.filter (fun a => !p a)).length = l.length := by
  induction l with
  | nil => rfl
  | cons a l ih =>
    by_cases h : p a = true
    · simp [List.filter_cons, h, Nat.succ_add, ih]
    · rw [Bool.not_eq_true] at h
      simp [List.filter_cons, h, ← Nat.add_assoc, Nat.add_comm, ih]
      omega

/-! ### C1 -/

/-- C1: the claim asserts that two callers racing `resolveOrCreate` on
the same canonical URL never create two Items because a uniqueness
constraint on `canonical_url` makes the second insert resolve to the
existing row.  The `ideas` table has no uniqueness constraint on `url`
(and `insertIdea` has no conflict handling: its `catch` returns null,
it never re-reads), so in the check-check-insert-insert interleaving of
two concurrent `resolveOrCreate` executions both inserts succeed: from
an empty store, two Item rows with the same canonical URL result. -/
theorem C1_race_inserts_two_items_for_one_url :
    ((racedResolveOrCreate "Fresh post" "Hacker News" "sum" "https://example.com/a" "tech"
          "https://hnrss.org/frontpage" none 0
          { nextIdeaId := 1, ideas := [], pending := [], swipes := [], feeds := [] }).ideas.map
        (fun r => (r.id, r.url))) =
      [(1, some "https://example.com/a"), (2, some "https://example.com/a")] := by
  decide

/-! ### C5 -/

/-- C5 counterexample: an item with a non-empty title but an empty link
does not lack both fields, yet `fetchRSS` discards it — the source
requires `title && link`, not `title || link`. -/
theorem C5_counterexample_title_without_link_discarded :
    buildItem "Headline" "" "Body." none = none ∧ ¬("Headline" = "" ∧ "" = "") := by
  refine ⟨by decide, by decide⟩

/-- C5 (amended): a parsed feed item is discarded iff it lacks a
non-empty title or lacks a non-empty link (kept iff it has both), and a
kept item's publish date is exactly the extracted one — absent stays
absent, never defaulted. -/
theorem C5_item_kept_iff_title_and_link :
    ∀ (t l d : String) (p : Option Int),
      (buildItem t l d p = none ↔ t = "" ∨ l = "") ∧
      (∀ it, buildItem t l d p = some it →
        it.title = t ∧ it.link = l ∧ it.description = d ∧ it.pubDate = p) := by
  intro t l d p
  unfold buildItem
  by_cases h : t ≠ "" ∧ l ≠ ""
  · rw [if_pos h]
    refine ⟨by simp [h.1, h.2], ?_⟩
    intro it hit
    injection hit with h2
    subst h2
    exact ⟨rfl, rfl, rfl, rfl⟩
  · rw [if_neg h]
    rw [not_and_or, not_not, not_not] at h
    refine ⟨⟨fun _ => h, fun _ => rfl⟩, ?_⟩
    intro it hit
    exact absurd hit (by simp)

/-- C5 witness: evaluating the amended theorem at concrete inputs — an
item with both fields is kept with its absent date preserved, one
missing the title is discarded. -/
theorem C5_witness :
    buildItem "" "https://a" "x" none = none ∧
      (∀ it, buildItem "T" "https://a" "x" none = some it → it.pubDate = none) := by
  constructor
  · exact (C5_item_kept_iff_title_and_link "" "https://a" "x" none).1.mpr (Or.inl rfl)
  · intro it hit
    exact ((C5_item_kept_iff_title_and_link "T" "https://a" "x" none).2 it hit).2.2.2

/-! ### C4 -/

/-- C4: the retention sweep deletes exactly the queue entries older than
the 7-day horizon that have no decision record for the same
(subscriber, item) pair, and reports the number of rows removed
(removed + kept = original); an entry aged 8 days with no decision is
removed, any entry with a recorded decision is kept, an entry aged
6 days is kept. -/
theorem C4_prune_exactly_stale_undecided :
    ∀ (db : DB) (now : Int),
      (∀ p, p ∈ (pruneStale db now).1.pending ↔
        p ∈ db.pending ∧
          ¬(p.addedAt < now - sevenDaysMs ∧
            ¬∃ s ∈ db.swipes, s.userId = p.userId ∧ s.ideaId = p.ideaId)) ∧
      (pruneStale db now).1.ideas = db.ideas ∧
      (pruneStale db now).1.swipes = db.swipes ∧
      (pruneStale db now).2 + (pruneStale db now).1.pending.length = db.pending.length ∧
      (∀ p ∈ db.pending, p.addedAt = now - 8 * dayMs →
        (¬∃ s ∈ db.swipes, s.userId = p.userId ∧ s.ideaId = p.ideaId) →
        p ∉ (pruneStale db now).1.pending) ∧
      (∀ p ∈ db.pending, (∃ s ∈ db.swipes, s.userId = p.userId ∧ s.ideaId = p.ideaId) →
        p ∈ (pruneStale db now).1.pending) ∧
      (∀ p ∈ db.pending, p.addedAt = now - 6 * dayMs → p ∈ (pruneStale db now).1.pending) := by
  intro db now
  have hmem : ∀ p, p ∈ (pruneStale db now).1.pending ↔
      p ∈ db.pending ∧ ¬(staleUnswiped db now p = true) := by
    intro p
    simp [pruneStale, List.mem_filter]
  have hmem2 : ∀ p, p ∈ (pruneStale db now).1.pending ↔
      p ∈ db.pending ∧
        ¬(p.addedAt < now - sevenDaysMs ∧
          ¬∃ s ∈ db.swipes, s.userId = p.userId ∧ s.ideaId = p.ideaId) := by
    intro p
    rw [hmem, staleUnswiped_iff]
  have hday : dayMs = 86400000 := by decide
  have hweek : sevenDaysMs = 604800000 := by decide
  refine ⟨hmem2, rfl, rfl, ?_, ?_, ?_, ?_⟩
  · show (db.pending.filter (staleUnswiped db now)).length +
      (db.pending.filter (fun p => !staleUnswiped db now p)).length = db.pending.length
    exact length_filter_partition _ _
  · intro p hp hage hnosw hin
    rcases (hmem2 p).mp hin with ⟨-, hns⟩
    exact hns ⟨by rw [hage, hday, hweek]; omega, hnosw⟩
  · intro p hp hsw
    exact (hmem2 p).mpr ⟨hp, fun h => h.2 hsw⟩
  · intro p hp hage
    refine (hmem2 p).mpr ⟨hp, fun h => ?_⟩
    rw [hage, hday] at h
    rw [hweek] at h
    omega

/-- C4 witness: the theorem applied to a concrete store — an 8-day-old
undecided entry is removed, an 8-day-old decided entry and a 6-day-old
entry are kept, and the reported count is 1. -/
theorem C4_witness :
    (⟨1, 1, -691200000⟩ : PendingRow) ∉
      (pruneStale ⟨1, [], [⟨1, 1, -691200000⟩, ⟨1, 2, -691200000⟩, ⟨1, 3, -518400000⟩],
        [⟨1, 2, "right", none, 0⟩], []⟩ 0).1.pending ∧
    (⟨1, 2, -691200000⟩ : PendingRow) ∈
      (pruneStale ⟨1, [], [⟨1, 1, -691200000⟩, ⟨1, 2, -691200000⟩, ⟨1, 3, -518400000⟩],
        [⟨1, 2, "right", none, 0⟩], []⟩ 0).1.pending ∧
    (⟨1, 3, -518400000⟩ : PendingRow) ∈
      (pruneStale ⟨1, [], [⟨1, 1, -691200000⟩, ⟨1, 2, -691200000⟩, ⟨1, 3, -518400000⟩],
        [⟨1, 2, "right", none, 0⟩], []⟩ 0).1.pending ∧
    (pruneStale ⟨1, [], [⟨1, 1, -691200000⟩, ⟨1, 2, -691200000⟩, ⟨1, 3, -518400000⟩],
        [⟨1, 2, "right", none, 0⟩], []⟩ 0).2 = 1 := by
  have h := C4_prune_exactly_stale_undecided
    ⟨1, [], [⟨1, 1, -691200000⟩, ⟨1, 2, -691200000⟩, ⟨1, 3, -518400000⟩],
      [⟨1, 2, "right", none, 0⟩], []⟩ 0
  refine ⟨?_, ?_, ?_, by decide⟩
  · exact h.2.2.2.2.1 _ (by decide) (by decide) (by decide)
  · exact h.2.2.2.2.2.1 _ (by decide) ⟨⟨1, 2, "right", none, 0⟩, by decide, rfl, rfl⟩
  · exact h.2.2.2.2.2.2 _ (by decide) (by decide)

/-! ### C6 -/

/-- C6: the feed reader never raises — a fetch failure (timeout,
network error) or a non-2xx HTTP status yields an empty item sequence
with the cause recorded in the log (a malformed document is a 2xx body
whose scan yields no blocks, hence `parseItems [] = []` as well); and
when a feed yields zero items the scheduler still stamps
`last_fetched` on every subscription row carrying that feed url and the
loop continues with the remaining feeds instead of aborting. -/
theorem C6_fetch_errors_nonfatal :
    ∀ (err : String) (status : Nat) (blocks : List ItemExtract) (feed : FeedFetch)
      (rest : List FeedFetch) (db : DB) (now : Int),
      ((fetchRSS (.failure err)).1 = [] ∧ (fetchRSS (.failure err)).2 ≠ []) ∧
      (¬(200 ≤ status ∧ status < 300) →
        (fetchRSS (.response status blocks)).1 = [] ∧
          (fetchRSS (.response status blocks)).2 ≠ []) ∧
      (parseItems [] = []) ∧
      ((fetchRSS feed.outcome).1 = [] →
        feedStep now db feed = markFetched db feed.url now ∧
        (∀ f ∈ db.feeds, f.url = feed.url →
          { f with lastFetched := some now } ∈ (feedStep now db feed).feeds) ∧
        ingestLoop now (feed :: rest) db = ingestLoop now rest (markFetched db feed.url now)) := by
  intro err status blocks feed rest db now
  refine ⟨⟨rfl, by simp [fetchRSS]⟩, ?_, rfl, ?_⟩
  · intro h
    rw [fetchRSS, if_neg h]
    exact ⟨rfl, by simp⟩
  · intro hempty
    have hstep : feedStep now db feed = markFetched db feed.url now := by
      rw [feedStep, hempty]
      rfl
    refine ⟨hstep, ?_, ?_⟩
    · intro f hf hurl
      rw [hstep, markFetched]
      have : ({ f with lastFetched := some now } : FeedRow) =
          (fun g => if g.url = feed.url then { g with lastFetched := some now } else g) f := by
        simp [hurl]
      rw [this]
      exact List.mem_map_of_mem _ hf
    · rw [ingestLoop, List.foldl_cons, hstep]
      rfl

/-- C6 witness: the theorem applied to a concrete timed-out feed with
one remaining feed — the failed feed produces no items, its
subscription row gets `last_fetched` stamped, and the loop proceeds to
the next feed. -/
theorem C6_witness :
    (fetchRSS (.failure "timeout") ).1 = [] ∧
    (fetchRSS (.response 503 [⟨"T", "https://x", "", none⟩])).1 = [] ∧
    feedStep 0
      ⟨1, [], [], [], [⟨1, "https://dead", "Dead", "tech", true, none, none⟩]⟩
      ⟨"https://dead", "Dead", "tech", [1], .failure "timeout"⟩ =
      markFetched ⟨1, [], [], [], [⟨1, "https://dead", "Dead", "tech", true, none, none⟩]⟩
        "https://dead" 0 ∧
    (⟨1, "https://dead", "Dead", "tech", true, some 0, none⟩ : FeedRow) ∈
      (feedStep 0 ⟨1, [], [], [], [⟨1, "https://dead", "Dead", "tech", true, none, none⟩]⟩
        ⟨"https://dead", "Dead", "tech", [1], .failure "timeout"⟩).feeds := by
  have h := C6_fetch_errors_nonfatal "timeout" 503 [⟨"T", "https://x", "", none⟩]
    ⟨"https://dead", "Dead", "tech", [1], .failure "timeout"⟩ []
    ⟨1, [], [], [], [⟨1, "https://dead", "Dead", "tech", true, none, none⟩]⟩ 0
  refine ⟨h.1.1, (h.2.1 (by decide)).1, (h.2.2.2 h.1.1).1, ?_⟩
  exact (h.2.2.2 h.1.1).2.1 ⟨1, "https://dead", "Dead", "tech", true, none, none⟩
    (by decide) rfl

/-! ### Query helper lemmas -/

/-- The saved-row sort is sorted by decision time, newest first. -/
theorem sortSavedDesc_sorted (l : List SavedRow) :
    List.Sorted (fun a b : SavedRow => b.swipedAt ≤ a.swipedAt) (sortSavedDesc l) := by
  haveI : IsTotal SavedRow (fun a b : SavedRow => b.swipedAt ≤ a.swipedAt) :=
    ⟨fun a b => le_total b.swipedAt a.swipedAt⟩
  haveI : IsTrans SavedRow (fun a b : SavedRow => b.swipedAt ≤ a.swipedAt) :=
    ⟨fun _ _ _ h1 h2 => le_trans h2 h1⟩
  exact List.sorted_insertionSort _ l

/-- The saved-row sort is a permutation. -/
theorem sortSavedDesc_perm (l : List SavedRow) : (sortSavedDesc l).Perm l :=
  List.perm_insertionSort _ l

/-- Rows surviving `LIMIT` come from the unlimited result. -/
theorem mem_sqlLimit {α : Type} {a : α} {n : Int} {l : List α}
    (h : a ∈ sqlLimit n l) : a ∈ l := by
  rw [sqlLimit] at h
  split at h
  · exact h
  · exact (List.take_sublist _ _).subset h

/-- A nonnegative `LIMIT` bounds the result length. -/
theorem sqlLimit_length_le {α : Type} (n : Int) (h : 0 ≤ n) (l : List α) :
    ((sqlLimit n l).length : Int) ≤ n := by
  rw [sqlLimit, if_neg (by omega)]
  have h1 : (l.take n.toNat).length ≤ n.toNat := by
    rw [List.length_take]
    exact min_le_left _ _
  calc ((l.take n.toNat).length : Int) ≤ (n.toNat : Int) := by exact_mod_cast h1
    _ = n := Int.toNat_of_nonneg h

/-- `LIMIT` preserves sortedness. -/
theorem sqlLimit_sorted {α : Type} {R : α → α → Prop} {n : Int} {l : List α}
    (h : List.Sorted R l) : List.Sorted R (sqlLimit n l) := by
  rw [sqlLimit]
  split
  · exact h
  · exact List.Pairwise.sublist (List.take_sublist _ _) h

/-- Every row produced by the saved-ideas join records a decision of the
subscriber: it stems from one of the subscriber's swipe rows, with
matching item id and decision time. -/
theorem mem_savedRows_swipe {db : DB} {uid : Nat} {r : SavedRow}
    (h : r ∈ savedRows db uid) :
    ∃ s ∈ db.swipes, s.userId = uid ∧ s.direction = "right" ∧
      r.ideaId = s.ideaId ∧ r.swipedAt = s.swipedAt := by
  rw [savedRows, List.mem_filterMap] at h
  obtain ⟨s, hs, hjoin⟩ := h
  by_cases hc : s.userId = uid ∧ s.direction = "right"
  · rw [if_pos hc, joinSwipe] at hjoin
    obtain ⟨i, hfind, hmk⟩ := Option.map_eq_some'.mp hjoin
    have hid : i.id = s.ideaId := by
      have := List.find?_some hfind
      exact eq_of_beq this
    refine ⟨s, hs, hc.1, hc.2, ?_, ?_⟩
    · rw [← hmk]
      exact hid
    · rw [← hmk]
  · rw [if_neg hc] at hjoin
    exact absurd hjoin (by simp)

/-! ### C8 -/

/-- `listSavedQuery` with its lets unfolded. -/
theorem listSavedQuery_eq (db : DB) (uid : Nat) (limit : Int) (category : Option String) :
    listSavedQuery db uid limit category =
      sqlLimit limit (sortSavedDesc (match catFilterActive category with
        | some c => (savedRows db uid).filter (fun r => decide (r.category = some c))
        | none => savedRows db uid)) := rfl

/-- The main server's limit clamp lands in [1, 50]. -/
theorem clampLimit_bounds (x : Option Int) : 1 ≤ clampLimit x ∧ clampLimit x ≤ 50 := by
  have h1 : ∀ b : Int, 1 ≤ min (max b 1) 50 :=
    fun b => le_min (le_max_right b 1) (by norm_num)
  have h2 : ∀ b : Int, min (max b 1) 50 ≤ 50 := fun b => min_le_right _ _
  cases x with
  | none => exact ⟨h1 10, h2 10⟩
  | some n =>
    by_cases h : n = 0
    · rw [clampLimit, h]
      exact ⟨h1 10, h2 10⟩
    · rw [clampLimit, if_neg h]
      exact ⟨h1 n, h2 n⟩

/-- A concrete store with 51 ideas, all right-swiped by subscriber 1. -/
def c8db : DB :=
  { nextIdeaId := 52,
    ideas := (List.range 51).map (fun k =>
      { id := k + 1, title := "t", source := "s", summary := "m", url := none,
        category := none, sourceFeed := none, contentType := "article",
        publishedAt := none, ingestedAt := 0 }),
    pending := [],
    swipes := (List.range 51).map (fun k =>
      { userId := 1, ideaId := k + 1, direction := "right", feedback := none,
        swipedAt := (k : Int) }),
    feeds := [] }

/-- C8 counterexample: the claim's bound fails on the standalone MCP
server — its `list_saved_ideas` handler passes `args?.limit || 10`
straight into `LIMIT` without the 50 cap, so with limit 51 and 51 saved
rows it returns 51 rows. -/
theorem C8_counterexample_standalone_unclamped :
    50 < (handleListSaved c8db 1 (some 51) none).length := by decide

/-- C8 (amended): the main server's `executeTool` clamps the limit into
[1, 50] (so at most 50 rows), defaults it to 10 when absent (or 0),
optionally filters by category, and orders results newest decision
first; the standalone MCP server's handler instead applies the caller's
limit with no 50 cap. -/
theorem C8_main_list_clamped :
    ∀ (db : DB) (uid : Nat) (email : String) (uname : Option String) (now : Int)
      (limitArg : Option Int) (category : Option String),
      (∃ rows, executeTool db uid email uname now (.listSaved limitArg category) =
          (db, .ideasOut rows rows.length) ∧
        rows.length ≤ 50 ∧
        (∀ r ∈ rows, r ∈ savedRows db uid ∧
          ∀ c, catFilterActive category = some c → r.category = some c) ∧
        List.Sorted (fun a b : SavedRow => b.swipedAt ≤ a.swipedAt) rows) ∧
      (limitArg = none → category = none →
        executeTool db uid email uname now (.listSaved limitArg category) =
          (db, .ideasOut ((sortSavedDesc (savedRows db uid)).take 10)
            ((sortSavedDesc (savedRows db uid)).take 10).length)) := by
  intro db uid email uname now limitArg category
  constructor
  · refine ⟨listSavedQuery db uid (clampLimit limitArg) category, rfl, ?_, ?_, ?_⟩
    · have hb := clampLimit_bounds limitArg
      have hlen := sqlLimit_length_le (clampLimit limitArg) (by omega)
        (sortSavedDesc (match catFilterActive category with
          | some c => (savedRows db uid).filter (fun r => decide (r.category = some c))
          | none => savedRows db uid))
      rw [listSavedQuery_eq]
      omega
    · intro r hr
      rw [listSavedQuery_eq] at hr
      have hr2 := (sortSavedDesc_perm _).mem_iff.mp (mem_sqlLimit hr)
      constructor
      · revert hr2
        rcases catFilterActive category with _ | c
        · exact fun h => h
        · exact fun h => (List.mem_filter.mp h).1
      · intro c2 hc2
        rw [hc2] at hr2
        exact of_decide_eq_true (List.mem_filter.mp hr2).2
    · rw [listSavedQuery_eq]
      exact sqlLimit_sorted (sortSavedDesc_sorted _)
  · intro h1 h2
    subst h1
    subst h2
    have hX : listSavedQuery db uid (clampLimit none) none =
        (sortSavedDesc (savedRows db uid)).take 10 := rfl
    simp only [executeTool]
    rw [hX]

/-- C8 witness: the amended theorem applied to the concrete store —
with no limit argument the main server's tool returns the first 10 rows
of the decision-time-descending order. -/
theorem C8_witness :
    executeTool c8db 1 "u@example.com" none 0 (.listSaved none none) =
      (c8db, .ideasOut ((sortSavedDesc (savedRows c8db 1)).take 10)
        ((sortSavedDesc (savedRows c8db 1)).take 10).length) :=
  (C8_main_list_clamped c8db 1 "u@example.com" none 0 none none).2 rfl rfl

/-! ### C7 -/

/-- `leadMatch` decides list prefixhood. -/
theorem leadMatch_iff (p : List Char) : ∀ l, leadMatch p l = true ↔ p <+: l := by
  induction p with
  | nil => intro l; simp [leadMatch, List.nil_prefix]
  | cons a as ih =>
    intro l
    cases l with
    | nil => simp [leadMatch, List.prefix_nil]
    | cons b bs =>
      rw [leadMatch, Bool.and_eq_true, beq_iff_eq, ih, List.cons_prefix_cons]

/-- `occursIn` decides list infixhood. -/
theorem occursIn_iff (p : List Char) : ∀ l, occursIn p l = true ↔ p <:+: l := by
  intro l
  induction l with
  | nil => rw [occursIn, leadMatch_iff, List.prefix_nil, List.infix_nil]
  | cons c cs ih =>
    rw [occursIn, Bool.or_eq_true, leadMatch_iff, ih, List.infix_cons_iff]

/-- Unfolding `likeChars` at a leading `%`. -/
theorem likeChars_pct (ps s : List Char) :
    likeChars ('%' :: ps) s = likeTails (likeChars ps) s := rfl

/-- Unfolding `likeChars` at a non-`%` pattern head against the empty
string. -/
theorem likeChars_cons_nil {c : Char} (h : ¬c = '%') (ps : List Char) :
    likeChars (c :: ps) [] = false := by
  rw [likeChars, if_neg h]

/-- Unfolding `likeChars` at a non-`%` pattern head against a non-empty
string. -/
theorem likeChars_cons_cons {c : Char} (h : ¬c = '%') (ps : List Char) (d : Char)
    (r : List Char) :
    likeChars (c :: ps) (d :: r) =
      ((if c = '_' then true else c == d) && likeChars ps r) := by
  rw [likeChars, if_neg h]

/-- `Char.ofNat` of a basic-latin code point keeps its code point. -/
theorem charOfNat_toNat (n : Nat) (h1 : 97 ≤ n) (h2 : n ≤ 122) :
    (Char.ofNat n).toNat = n := by
  rw [Char.ofNat, dif_pos (Or.inl (by omega : n < 55296))]
  rfl

/-- ASCII lowering only produces characters at or above code point 97
when it changes anything, so it cannot produce a symbol such as `%`
(37) or `_` (95) from a different character. -/
theorem toLower_eq_symbol {c w : Char} (hw : w.toNat < 97) (h : c.toLower = w) : c = w := by
  rw [Char.toLower] at h
  by_cases hr : c.toNat ≥ 65 ∧ c.toNat ≤ 90
  · exfalso
    rw [if_pos hr] at h
    have h2 : (Char.ofNat (c.toNat + 32)).toNat = w.toNat := by rw [h]
    rw [charOfNat_toNat (c.toNat + 32) (by omega) (by omega)] at h2
    omega
  · rw [if_neg hr] at h
    exact h

/-- A query free of `LIKE` wildcards stays free of them after ASCII
lowering. -/
theorem lowerOf_wildFree {q : String} (h : ∀ c ∈ q.toList, c ≠ '%' ∧ c ≠ '_') :
    ∀ c ∈ lowerOf q, c ≠ '%' ∧ c ≠ '_' := by
  intro c hc
  rw [lowerOf, List.mem_map] at hc
  obtain ⟨c0, hc0, rfl⟩ := hc
  constructor
  · intro hp
    exact (h c0 hc0).1 (toLower_eq_symbol (by decide) hp)
  · intro hu
    exact (h c0 hc0).2 (toLower_eq_symbol (by decide) hu)

/-- The `%` scan succeeds exactly when the rest of the pattern matches
some suffix. -/
theorem likeTails_iff (f : List Char → Bool) :
    ∀ s, (likeTails f s = true ↔ ∃ t, t <:+ s ∧ f t = true) := by
  intro s
  induction s with
  | nil =>
    rw [likeTails]
    constructor
    · intro h
      exact ⟨[], List.suffix_refl [], h⟩
    · rintro ⟨t, ht, hf⟩
      rw [List.suffix_nil] at ht
      subst ht
      exact hf
  | cons a rest ih =>
    rw [likeTails, Bool.or_eq_true, ih]
    constructor
    · rintro (h | ⟨t, ht, hf⟩)
      · exact ⟨a :: rest, List.suffix_refl _, h⟩
      · exact ⟨t, List.suffix_cons_iff.mpr (Or.inr ht), hf⟩
    · rintro ⟨t, ht, hf⟩
      rcases List.suffix_cons_iff.mp ht with rfl | ht2
      · exact Or.inl hf
      · exact Or.inr ⟨t, ht2, hf⟩

/-- For a wildcard-free pattern, matching it followed by a final `%`
succeeds exactly on strings having the pattern as a prefix. -/
theorem likeChars_append_pct :
    ∀ p : List Char, (∀ c ∈ p, c ≠ '%' ∧ c ≠ '_') →
      ∀ t, (likeChars (p ++ ['%']) t = true ↔ p <+: t) := by
  intro p
  induction p with
  | nil =>
    intro _ t
    rw [List.nil_append, likeChars_pct, likeTails_iff]
    constructor
    · intro _
      exact List.nil_prefix
    · intro _
      exact ⟨[], List.nil_suffix, rfl⟩
  | cons c p2 ih =>
    intro hp t
    have hc := hp c (List.mem_cons_self c p2)
    rw [List.cons_append]
    cases t with
    | nil =>
      rw [likeChars_cons_nil hc.1]
      simp [List.prefix_nil]
    | cons d r =>
      rw [likeChars_cons_cons hc.1, if_neg hc.2, Bool.and_eq_true, beq_iff_eq,
        ih (fun x hx => hp x (List.mem_cons_of_mem c hx)) r, List.cons_prefix_cons]

/-- For a query containing neither `%` nor `_`, the source's
`LIKE '%query%'` is exactly case-insensitive substring containment. -/
theorem likeMatch_substring_iff {q : String} (hq : ∀ c ∈ q.toList, c ≠ '%' ∧ c ≠ '_')
    (s : String) : likeMatch q s = true ↔ List.IsInfix (lowerOf q) (lowerOf s) := by
  rw [likeMatch, likeChars_pct, likeTails_iff, List.infix_iff_prefix_suffix]
  constructor
  · rintro ⟨t, ht, hf⟩
    exact ⟨t, (likeChars_append_pct (lowerOf q) (lowerOf_wildFree hq) t).mp hf, ht⟩
  · rintro ⟨t, hpre, hsuf⟩
    exact ⟨t, hsuf, (likeChars_append_pct (lowerOf q) (lowerOf_wildFree hq) t).mpr hpre⟩

/-- C7 counterexample idea row: title `AbC`, saved by subscriber 1. -/
def c7row : IdeaRow :=
  { id := 1, title := "AbC", source := "S", summary := "x", url := none, category := none,
    sourceFeed := none, contentType := "article", publishedAt := none, ingestedAt := 0 }

/-- C7 counterexample store: one saved (right-swiped, no note) item. -/
def c7db : DB :=
  { nextIdeaId := 2, ideas := [c7row], pending := [], swipes := [⟨1, 1, "right", none, 0⟩],
    feeds := [] }

/-- C7 counterexample: the claim describes the matches as a
case-insensitive substring search, but the source splices the query
into `LIKE '%...%'` with no `ESCAPE` clause, so `_` (and `%`) in the
query are live wildcards: for the query `A_C` the search returns the
item titled `AbC` although no stored field (title, summary, or decision
note) contains `a_c` as a substring — under the claim's substring
reading this query matches no records and must return the empty
sequence. -/
theorem C7_counterexample_wildcard_query :
    searchSavedQuery c7db 1 "A_C" ≠ [] ∧
    (∀ r ∈ savedRows c7db 1,
      ¬List.IsInfix (lowerOf "A_C") (lowerOf r.title) ∧
      ¬List.IsInfix (lowerOf "A_C") (lowerOf r.summary) ∧
      ∀ f, r.hotTake = some f → ¬List.IsInfix (lowerOf "A_C") (lowerOf f)) := by
  refine ⟨by decide, by decide⟩

/-- C7 (amended): the search tool rejects an empty (or absent) query
with an error result rather than matching everything; for a non-empty
query it returns — never an error — the rows of the subscriber's saved
items whose title, summary, or decision note matches the SQLite pattern
`%query%` case-insensitively (there is no `ESCAPE` clause, so `%` and
`_` inside the query act as live wildcards), newest decision first,
capped at 20; when nothing matches, the result is the empty sequence;
for a query containing neither `%` nor `_` the match is exactly
case-insensitive substring containment. -/
theorem C7_search_empty_rejected_nonempty_results :
    ∀ (db : DB) (uid : Nat) (email : String) (uname : Option String) (now : Int)
      (query : Option String),
      ((query = none ∨ query = some "") →
        executeTool db uid email uname now (.searchIdeas query) =
          (db, .errOut "Query is required")) ∧
      (∀ q, query = some q → q ≠ "" →
        executeTool db uid email uname now (.searchIdeas query) =
          (db, .searchOut (searchSavedQuery db uid q) (searchSavedQuery db uid q).length q) ∧
        (searchSavedQuery db uid q).length ≤ 20 ∧
        (∀ r ∈ searchSavedQuery db uid q, r ∈ savedRows db uid ∧ rowMatches q r = true) ∧
        List.Sorted (fun a b : SavedRow => b.swipedAt ≤ a.swipedAt)
          (searchSavedQuery db uid q) ∧
        ((∀ r ∈ savedRows db uid, rowMatches q r = false) → searchSavedQuery db uid q = []) ∧
        ((∀ c ∈ q.toList, c ≠ '%' ∧ c ≠ '_') →
          ∀ s : String, likeMatch q s = true ↔ List.IsInfix (lowerOf q) (lowerOf s))) := by
  intro db uid email uname now query
  constructor
  · rintro (rfl | rfl) <;> rfl
  · intro q hq hne
    subst hq
    have harm : executeTool db uid email uname now (.searchIdeas (some q)) =
        (db, .searchOut (searchSavedQuery db uid q) (searchSavedQuery db uid q).length q) := by
      simp only [executeTool, Option.getD_some]
      rw [if_neg hne]
    refine ⟨harm, ?_, ?_, ?_, ?_, fun hq s => likeMatch_substring_iff hq s⟩
    · have hlen := sqlLimit_length_le 20 (by norm_num)
        (sortSavedDesc ((savedRows db uid).filter (rowMatches q)))
      rw [searchSavedQuery]
      omega
    · intro r hr
      rw [searchSavedQuery] at hr
      have hr2 := (sortSavedDesc_perm _).mem_iff.mp (mem_sqlLimit hr)
      exact ⟨(List.mem_filter.mp hr2).1, (List.mem_filter.mp hr2).2⟩
    · rw [searchSavedQuery]
      exact sqlLimit_sorted (sortSavedDesc_sorted _)
    · intro hnone
      have hfil : (savedRows db uid).filter (rowMatches q) = [] := by
        rw [List.filter_eq_nil_iff]
        intro r hr
        rw [hnone r hr]
        simp
      rw [searchSavedQuery, hfil]
      rfl

/-- C7 witness: the theorem applied to a concrete store with one saved
row — the empty query errors, a non-matching (wildcard-free) query
returns the empty sequence, and a wildcard-free query matching
case-insensitively is a match. -/
theorem C7_witness :
    executeTool ⟨2, [⟨1, "Rust 2.0", "HN", "big", none, none, none, "article", none, 0⟩], [],
        [⟨1, 1, "right", some "neat", 0⟩], []⟩ 1 "u@example.com" none 0
      (.searchIdeas (some "")) =
      (⟨2, [⟨1, "Rust 2.0", "HN", "big", none, none, none, "article", none, 0⟩], [],
        [⟨1, 1, "right", some "neat", 0⟩], []⟩, .errOut "Query is required") ∧
    searchSavedQuery ⟨2, [⟨1, "Rust 2.0", "HN", "big", none, none, none, "article", none, 0⟩], [],
        [⟨1, 1, "right", some "neat", 0⟩], []⟩ 1 "zzz" = [] ∧
    likeMatch "rUsT" "Rust 2.0" = true := by
  have h := C7_search_empty_rejected_nonempty_results
    ⟨2, [⟨1, "Rust 2.0", "HN", "big", none, none, none, "article", none, 0⟩], [],
      [⟨1, 1, "right", some "neat", 0⟩], []⟩ 1 "u@example.com" none 0
  refine ⟨(h (some "")).1 (Or.inr rfl), ?_, ?_⟩
  · exact ((h (some "zzz")).2 "zzz" rfl (by decide)).2.2.2.2.1 (by decide)
  · exact (((h (some "rUsT")).2 "rUsT" rfl (by decide)).2.2.2.2.2 (by decide) "Rust 2.0").mpr
      ⟨[], " 2.0".toList.map Char.toLower, by decide⟩

/-! ### C2 -/

/-- Items surviving `parseItems` have a non-empty title and link. -/
theorem parseItems_mem_fields {blocks : List ItemExtract} {it : RSSItem}
    (h : it ∈ parseItems blocks) : it.title ≠ "" ∧ it.link ≠ "" := by
  rw [parseItems, List.mem_filterMap] at h
  obtain ⟨b, _, hbuild⟩ := h
  rw [buildItem] at hbuild
  by_cases h2 : b.title ≠ "" ∧ b.link ≠ ""
  · rw [if_pos h2] at hbuild
    injection hbuild with h3
    subst h3
    exact h2
  · rw [if_neg h2] at hbuild
    exact absurd hbuild (by simp)

/-- Membership in the candidate set: in the parsed items, with both
fields, and published strictly within the last 24 hours. -/
theorem candidateItems_mem (now : Int) (items : List RSSItem) (it : RSSItem) :
    it ∈ candidateItems now items ↔
      it ∈ items ∧ (it.title ≠ "" ∧ it.link ≠ "") ∧
        ∃ t, it.pubDate = some t ∧ now - dayMs < t := by
  have hrec : isRecent now it = true ↔ ∃ t, it.pubDate = some t ∧ now - dayMs < t := by
    rw [isRecent]
    cases hpd : it.pubDate with
    | none => simp
    | some t => simp
  rw [candidateItems, List.mem_filter, List.mem_filter, hrec, hasTitleAndLink,
    decide_eq_true_iff, and_assoc]

/-- Candidate items all carry a publish date. -/
theorem candidateItems_isSome (now : Int) (items : List RSSItem) :
    ∀ x ∈ candidateItems now items, x.pubDate.isSome := by
  intro x hx
  obtain ⟨-, -, t, ht, -⟩ := (candidateItems_mem now items x).mp hx
  rw [ht]
  rfl

/-- The comparator agrees with key order on dated items. -/
theorem cmpItems_le_iff {a b : RSSItem} {ta tb : Int} (ha : a.pubDate = some ta)
    (hb : b.pubDate = some tb) : cmpItems a b ≤ 0 ↔ tb ≤ ta := by
  have h : cmpItems a b = tb - ta := by rw [cmpItems, ha, hb]
  rw [h]
  omega

/-- Inserting a dated item into a key-descending sorted list of dated
items keeps it sorted. -/
theorem orderedInsert_sorted_pub (a : RSSItem) (l : List RSSItem)
    (ha : a.pubDate.isSome) (hl : ∀ x ∈ l, x.pubDate.isSome)
    (hs : List.Sorted (fun x y : RSSItem => pubKey y ≤ pubKey x) l) :
    List.Sorted (fun x y : RSSItem => pubKey y ≤ pubKey x)
      (List.orderedInsert (fun x y => cmpItems x y ≤ 0) a l) := by
  induction l with
  | nil => simp [List.orderedInsert]
  | cons b bs ih =>
    rw [List.orderedInsert]
    obtain ⟨ta, hta⟩ := Option.isSome_iff_exists.mp ha
    obtain ⟨tb, htb⟩ := Option.isSome_iff_exists.mp (hl b (List.mem_cons_self b bs))
    rw [List.sorted_cons] at hs
    by_cases hr : cmpItems a b ≤ 0
    · rw [if_pos hr]
      have hba : pubKey b ≤ pubKey a := by
        have := (cmpItems_le_iff hta htb).mp hr
        simp [pubKey, hta, htb, this]
      rw [List.sorted_cons]
      refine ⟨?_, List.sorted_cons.mpr hs⟩
      intro x hx
      rcases List.mem_cons.mp hx with rfl | hx2
      · exact hba
      · exact le_trans (hs.1 x hx2) hba
    · rw [if_neg hr]
      rw [List.sorted_cons]
      constructor
      · intro x hx
        have hx2 := (List.perm_orderedInsert _ a bs).mem_iff.mp hx
        rcases List.mem_cons.mp hx2 with rfl | hx3
        · have hnle : ¬ tb ≤ ta := fun hle => hr ((cmpItems_le_iff hta htb).mpr hle)
          simp [pubKey, hta, htb]
          omega
        · exact hs.1 x hx3
      · exact ih (fun x hx => hl x (List.mem_cons_of_mem b hx)) hs.2

/-- The pipeline sort is publish-time descending on all-dated lists. -/
theorem sortItemsDesc_sorted (l : List RSSItem) (hl : ∀ x ∈ l, x.pubDate.isSome) :
    List.Sorted (fun x y : RSSItem => pubKey y ≤ pubKey x) (sortItemsDesc l) := by
  induction l with
  | nil => simp [sortItemsDesc, List.insertionSort]
  | cons a as ih =>
    rw [sortItemsDesc, List.insertionSort]
    apply orderedInsert_sorted_pub
    · exact hl a (List.mem_cons_self a as)
    · intro x hx
      exact hl x (List.mem_cons_of_mem a ((List.perm_insertionSort _ as).mem_iff.mp hx))
    · exact ih (fun x hx => hl x (List.mem_cons_of_mem a hx))

/-- C2: a pass keeps exactly the parsed items published strictly more
recently than 24 hours before "now" (a dateless item is excluded, never
defaulted), sorts the kept items by publish time descending, and
processes at most 10 of them. -/
theorem C2_recency_filter_sort_cap :
    ∀ (now : Int) (blocks : List ItemExtract),
      (∀ it, it ∈ candidateItems now (parseItems blocks) ↔
        it ∈ parseItems blocks ∧ ∃ t, it.pubDate = some t ∧ now - dayMs < t) ∧
      (∀ it ∈ sortedCandidates now (parseItems blocks),
        it ∈ candidateItems now (parseItems blocks)) ∧
      (sortedCandidates now (parseItems blocks)).length ≤ 10 ∧
      List.Sorted (fun a b : RSSItem => pubKey b ≤ pubKey a)
        (sortedCandidates now (parseItems blocks)) := by
  intro now blocks
  refine ⟨?_, ?_, ?_, ?_⟩
  · intro it
    rw [candidateItems_mem]
    constructor
    · rintro ⟨h1, -, h3⟩
      exact ⟨h1, h3⟩
    · rintro ⟨h1, h3⟩
      exact ⟨h1, parseItems_mem_fields h1, h3⟩
  · intro it hit
    rw [sortedCandidates] at hit
    exact ((List.perm_insertionSort _ _).mem_iff).mp ((List.take_sublist _ _).subset hit)
  · rw [sortedCandidates, List.length_take]
    exact min_le_left _ _
  · rw [sortedCandidates]
    exact List.Pairwise.sublist (List.take_sublist _ _)
      (sortItemsDesc_sorted _ (candidateItems_isSome now (parseItems blocks)))

/-- Three extracted blocks: published 23 hours ago, 25 hours ago, and
undated (with "now" = 0). -/
def c2blocks : List ItemExtract :=
  [⟨"Fresh", "https://a/1", "", some (-82800000)⟩,
   ⟨"Stale", "https://a/2", "", some (-90000000)⟩,
   ⟨"NoDate", "https://a/3", "", none⟩]

/-- C2 witness: the theorem applied at "now" = 0 to the concrete blocks
— the 23-hour-old item is a candidate, the 25-hour-old and undated ones
are not, and at most 10 items are processed. -/
theorem C2_witness :
    (⟨"Fresh", "https://a/1", "", some (-82800000)⟩ : RSSItem) ∈
      candidateItems 0 (parseItems c2blocks) ∧
    (⟨"Stale", "https://a/2", "", some (-90000000)⟩ : RSSItem) ∉
      candidateItems 0 (parseItems c2blocks) ∧
    (⟨"NoDate", "https://a/3", "", none⟩ : RSSItem) ∉
      candidateItems 0 (parseItems c2blocks) ∧
    (sortedCandidates 0 (parseItems c2blocks)).length ≤ 10 := by
  have h := C2_recency_filter_sort_cap 0 c2blocks
  exact ⟨(h.1 _).mpr ⟨by decide, ⟨-82800000, rfl, by decide⟩⟩, by decide, by decide, h.2.2.1⟩

/-! ### C10 -/

/-- The user-scoping test of the saved-ideas join fuses into a filter on
the swipe rows. -/
theorem filterMap_user_fuse (uid : Nat) (g : SwipeRow → Option SavedRow) :
    ∀ l : List SwipeRow,
      l.filterMap (fun s => if s.userId = uid ∧ s.direction = "right" then g s else none) =
        (l.filter (fun s => s.userId == uid)).filterMap
          (fun s => if s.direction = "right" then g s else none) := by
  intro l
  induction l with
  | nil => rfl
  | cons s l ih =>
    by_cases hu : s.userId = uid
    · by_cases hd : s.direction = "right"
      · simp [List.filterMap_cons, List.filter_cons, hu, hd, ih]
      · simp [List.filterMap_cons, List.filter_cons, hu, hd, ih]
    · simp [List.filterMap_cons, List.filter_cons, hu, ih]

/-- The saved-ideas join reads only the subscriber's own swipe rows and
the global ideas table. -/
theorem savedRows_scoped (db : DB) (uid : Nat) :
    savedRows db uid = (db.swipes.filter (fun s => s.userId == uid)).filterMap
      (fun s => if s.direction = "right" then joinSwipe db.ideas s else none) := by
  rw [savedRows]
  exact filterMap_user_fuse uid (joinSwipe db.ideas) db.swipes

/-- Two stores agreeing on the ideas table and on the subscriber's swipe
rows produce the same saved-ideas join. -/
theorem savedRows_eq_of (d1 d2 : DB) (uid : Nat) (hid : d1.ideas = d2.ideas)
    (hsw : d1.swipes.filter (fun s => s.userId == uid) =
      d2.swipes.filter (fun s => s.userId == uid)) :
    savedRows d1 uid = savedRows d2 uid := by
  rw [savedRows_scoped, savedRows_scoped, hsw, hid]

/-- C10: two-run noninterference of the tool dispatcher — for a fixed
session subscriber, the result of any tool call is unchanged between two
stores that agree on the global ideas table (and its id counter) and on
the subscriber's own swipe, queue, and feed-subscription rows (so
arbitrary changes to other subscribers' rows cannot influence it); and
no tool call writes any subscriber-owned row at all — swipes, queue and
feed subscriptions are untouched and the only write appends to the
global ideas table. -/
theorem C10_tool_noninterference :
    ∀ (call : ToolCall) (uid : Nat) (email : String) (uname : Option String) (now : Int)
      (d1 d2 : DB),
      d1.nextIdeaId = d2.nextIdeaId →
      d1.ideas = d2.ideas →
      d1.swipes.filter (fun s => s.userId == uid) =
        d2.swipes.filter (fun s => s.userId == uid) →
      d1.pending.filter (fun p => p.userId == uid) =
        d2.pending.filter (fun p => p.userId == uid) →
      d1.feeds.filter (fun f => f.userId == uid) =
        d2.feeds.filter (fun f => f.userId == uid) →
      (executeTool d1 uid email uname now call).2 =
        (executeTool d2 uid email uname now call).2 ∧
      (∀ db : DB, (executeTool db uid email uname now call).1.swipes = db.swipes ∧
        (executeTool db uid email uname now call).1.pending = db.pending ∧
        (executeTool db uid email uname now call).1.feeds = db.feeds ∧
        ∃ t, (executeTool db uid email uname now call).1.ideas = db.ideas ++ t) := by
  intro call uid email uname now d1 d2 hnext hid hsw hpen hfee
  have hsaved : savedRows d1 uid = savedRows d2 uid := savedRows_eq_of d1 d2 uid hid hsw
  constructor
  · cases call with
    | listSaved limitArg category =>
      simp only [executeTool]
      rw [show listSavedQuery d1 uid (clampLimit limitArg) category =
          listSavedQuery d2 uid (clampLimit limitArg) category from by
        rw [listSavedQuery_eq, listSavedQuery_eq, hsaved]]
    | searchIdeas query =>
      simp only [executeTool]
      by_cases hq : query.getD "" = ""
      · rw [if_pos hq, if_pos hq]
      · rw [if_neg hq, if_neg hq]
        rw [show searchSavedQuery d1 uid (query.getD "") =
            searchSavedQuery d2 uid (query.getD "") from by
          rw [searchSavedQuery, searchSavedQuery, hsaved]]
    | getPrefs =>
      simp only [executeTool]
      have h1 : prefsStats d1 uid = prefsStats d2 uid := by
        unfold prefsStats
        rw [hsw]
      have h2 : favCats d1 uid = favCats d2 uid := by
        unfold favCats
        rw [hsaved]
      rw [h1, h2]
    | addIdea args =>
      simp only [executeTool]
      by_cases hv :
          (!strTruthy args.title || !strTruthy args.source || !strTruthy args.summary) = true
      · rw [if_pos hv, if_pos hv]
      · rw [if_neg hv, if_neg hv]
  · intro db
    cases call with
    | listSaved limitArg category => exact ⟨rfl, rfl, rfl, [], (List.append_nil _).symm⟩
    | searchIdeas query =>
      simp only [executeTool]
      by_cases hq : query.getD "" = ""
      · rw [if_pos hq]
        exact ⟨rfl, rfl, rfl, [], (List.append_nil _).symm⟩
      · rw [if_neg hq]
        exact ⟨rfl, rfl, rfl, [], (List.append_nil _).symm⟩
    | getPrefs => exact ⟨rfl, rfl, rfl, [], (List.append_nil _).symm⟩
    | addIdea args =>
      simp only [executeTool]
      by_cases hv :
          (!strTruthy args.title || !strTruthy args.source || !strTruthy args.summary) = true
      · rw [if_pos hv]
        exact ⟨rfl, rfl, rfl, [], (List.append_nil _).symm⟩
      · rw [if_neg hv]
        exact ⟨rfl, rfl, rfl, _, rfl⟩

/-- C10 witness: the theorem applied to two concrete stores differing
only in subscriber 2's swipe rows — subscriber 1's search result is
identical on both. -/
theorem C10_witness :
    (executeTool ⟨2, [⟨1, "T", "S", "M", none, none, none, "article", none, 0⟩], [],
        [⟨1, 1, "right", none, 3⟩], []⟩ 1 "u@example.com" none 0
      (.searchIdeas (some "t"))).2 =
    (executeTool ⟨2, [⟨1, "T", "S", "M", none, none, none, "article", none, 0⟩], [],
        [⟨1, 1, "right", none, 3⟩, ⟨2, 1, "left", some "other", 9⟩], []⟩ 1 "u@example.com" none 0
      (.searchIdeas (some "t"))).2 :=
  (C10_tool_noninterference (.searchIdeas (some "t")) 1 "u@example.com" none 0
    ⟨2, [⟨1, "T", "S", "M", none, none, none, "article", none, 0⟩], [],
      [⟨1, 1, "right", none, 3⟩], []⟩
    ⟨2, [⟨1, "T", "S", "M", none, none, none, "article", none, 0⟩], [],
      [⟨1, 1, "right", none, 3⟩, ⟨2, 1, "left", some "other", 9⟩], []⟩
    rfl rfl (by decide) (by decide) (by decide)).1

/-! ### C9 -/

/-- Rows returned by the list tool come from the saved-ideas join. -/
theorem mem_listSavedQuery_saved {db : DB} {uid : Nat} {limit : Int}
    {category : Option String} {r : SavedRow}
    (h : r ∈ listSavedQuery db uid limit category) : r ∈ savedRows db uid := by
  rw [listSavedQuery_eq] at h
  have h2 := (sortSavedDesc_perm _).mem_iff.mp (mem_sqlLimit h)
  revert h2
  rcases catFilterActive category with _ | c
  · exact fun h => h
  · exact fun h => (List.mem_filter.mp h).1

/-- The Item row a successful `add_idea` call creates. -/
def addIdeaRow (db : DB) (args : AddArgs) (now : Int) : IdeaRow :=
  { id := db.nextIdeaId, title := args.title.getD "", source := args.source.getD "",
    summary := args.summary.getD "", url := strOrNull args.url,
    category := some (strOr args.category "custom"), sourceFeed := some "mcp",
    contentType := "article", publishedAt := none, ingestedAt := now }

/-- C9: a successful `add_idea` call returns a confirmation, appends
exactly one Item row (with the fresh id) to the global ideas table, and
leaves the decision, queue, and feed-subscription tables unchanged — in
particular it enqueues nothing; consequently, as long as no decision
exists for the new id, no `list_saved_ideas` result (for any subscriber,
limit, or category) can contain it.  An invalid call (missing
title/source/summary) is an error and leaves the store unchanged. -/
theorem C9_add_idea_frame_no_auto_enqueue :
    ∀ (db : DB) (uid : Nat) (email : String) (uname : Option String) (now : Int)
      (args : AddArgs),
      (∀ s ∈ db.swipes, s.ideaId ≠ db.nextIdeaId) →
      (strTruthy args.title = true → strTruthy args.source = true →
        strTruthy args.summary = true →
        (executeTool db uid email uname now (.addIdea args)).2 =
          .addedOut "Idea added to your queue" ∧
        (executeTool db uid email uname now (.addIdea args)).1.swipes = db.swipes ∧
        (executeTool db uid email uname now (.addIdea args)).1.pending = db.pending ∧
        (executeTool db uid email uname now (.addIdea args)).1.feeds = db.feeds ∧
        (∃ row : IdeaRow, (executeTool db uid email uname now (.addIdea args)).1.ideas =
          db.ideas ++ [row] ∧ row.id = db.nextIdeaId) ∧
        (∀ (uid2 : Nat) (limitArg : Option Int) (category : Option String)
          (rows : List SavedRow) (cnt : Nat),
          (executeTool (executeTool db uid email uname now (.addIdea args)).1 uid2 email uname
            now (.listSaved limitArg category)).2 = .ideasOut rows cnt →
          ∀ r ∈ rows, r.ideaId ≠ db.nextIdeaId)) ∧
      (¬(strTruthy args.title = true ∧ strTruthy args.source = true ∧
          strTruthy args.summary = true) →
        executeTool db uid email uname now (.addIdea args) =
          (db, .errOut "title, source, and summary are required")) := by
  intro db uid email uname now args hwf
  constructor
  · intro h1 h2 h3
    have hres : executeTool db uid email uname now (.addIdea args) =
        ({ db with
            nextIdeaId := db.nextIdeaId + 1,
            ideas := db.ideas ++ [addIdeaRow db args now] },
          .addedOut "Idea added to your queue") := by
      simp only [executeTool]
      rw [if_neg (by rw [h1, h2, h3]; simp)]
      rfl
    refine ⟨by rw [hres], by rw [hres], by rw [hres], by rw [hres],
      ⟨_, by rw [hres], rfl⟩, ?_⟩
    intro uid2 limitArg category rows cnt heq r hr
    rw [hres] at heq
    simp only [executeTool] at heq
    injection heq with hrows hcnt
    subst hrows
    obtain ⟨s, hs, -, -, hid, -⟩ := mem_savedRows_swipe (mem_listSavedQuery_saved hr)
    rw [hid]
    exact hwf s hs
  · intro hno
    have hcond :
        (!strTruthy args.title || !strTruthy args.source || !strTruthy args.summary) = true := by
      cases ht : strTruthy args.title <;> cases hs : strTruthy args.source <;>
        cases hm : strTruthy args.summary <;> simp_all
    simp only [executeTool]
    rw [if_pos hcond]

/-- C9 witness: the theorem applied to an empty store — the call
succeeds, enqueues nothing, and the new Item is absent from the default
`list_saved_ideas` result; after an explicit right-swipe decision on the
new id, the same listing does contain it. -/
theorem C9_witness :
    (executeTool ⟨1, [], [], [], []⟩ 9 "u@example.com" none 0
        (.addIdea ⟨some "T", some "S", some "M", none, none⟩)).1.pending = [] ∧
    (∀ rows cnt,
      (executeTool (executeTool ⟨1, [], [], [], []⟩ 9 "u@example.com" none 0
          (.addIdea ⟨some "T", some "S", some "M", none, none⟩)).1 9 "u@example.com" none 0
        (.listSaved none none)).2 = .ideasOut rows cnt →
      ∀ r ∈ rows, r.ideaId ≠ 1) ∧
    (executeTool { (executeTool ⟨1, [], [], [], []⟩ 9 "u@example.com" none 0
          (.addIdea ⟨some "T", some "S", some "M", none, none⟩)).1 with
        swipes := [⟨9, 1, "right", some "hot", 5⟩] } 9 "u@example.com" none 0
      (.listSaved none none)).2 =
      .ideasOut [⟨1, "T", "S", "M", none, some "custom", "article", some "hot", 5⟩] 1 := by
  have h := C9_add_idea_frame_no_auto_enqueue ⟨1, [], [], [], []⟩ 9 "u@example.com" none 0
    ⟨some "T", some "S", some "M", none, none⟩ (by intro s hs; cases hs)
  have hv := h.1 rfl rfl rfl
  exact ⟨hv.2.2.1, fun rows cnt heq => hv.2.2.2.2.2 9 none none rows cnt heq, by decide⟩

/-! ### C3 infrastructure -/

/-- A store extension: ideas and pending rows are only appended. -/
def dbExtends (d2 d1 : DB) : Prop :=
  (∃ t, d2.ideas = d1.ideas ++ t) ∧ (∃ t, d2.pending = d1.pending ++ t)

/-- Reflexivity of store extension. -/
theorem dbExtends_refl (d : DB) : dbExtends d d :=
  ⟨⟨[], (List.append_nil _).symm⟩, ⟨[], (List.append_nil _).symm⟩⟩

/-- Transitivity of store extension. -/
theorem dbExtends_trans {d1 d2 d3 : DB} (h12 : dbExtends d2 d1) (h23 : dbExtends d3 d2) :
    dbExtends d3 d1 := by
  obtain ⟨⟨t1, h1⟩, ⟨t2, h2⟩⟩ := h12
  obtain ⟨⟨t3, h3⟩, ⟨t4, h4⟩⟩ := h23
  exact ⟨⟨t1 ++ t3, by rw [h3, h1, List.append_assoc]⟩,
    ⟨t2 ++ t4, by rw [h4, h2, List.append_assoc]⟩⟩

/-- A url resolving to an id keeps resolving to it after rows are
appended (the first matching row is unchanged). -/
theorem findIdeaIdByUrl_append_some {ideas t : List IdeaRow} {url : String} {i : Nat}
    (h : findIdeaIdByUrl ideas url = some i) : findIdeaIdByUrl (ideas ++ t) url = some i := by
  rw [findIdeaIdByUrl] at h ⊢
  rw [List.find?_append]
  cases hf : ideas.find? (fun r => decide (r.url = some url)) with
  | none =>
    rw [hf] at h
    exact absurd h (by simp)
  | some r =>
    rw [hf] at h
    exact h

/-- A present pending pair stays present after rows are appended. -/
theorem pendingHasL_append {pending t : List PendingRow} {u i : Nat}
    (h : pendingHasL pending u i = true) : pendingHasL (pending ++ t) u i = true := by
  rw [pendingHasL, List.any_append]
  rw [pendingHasL] at h
  rw [h]
  rfl

/-- Introduction rule for `settledB`. -/
theorem settledB_intro {db : DB} {users : List Nat} {link : String} {i : Nat}
    (h1 : ideaExistsByUrl db link = some i)
    (h2 : ∀ u ∈ users, pendingHas db u i = true) :
    settledB db users link = true := by
  rw [settledB, settledL]
  rw [ideaExistsByUrl] at h1
  rw [h1]
  exact List.all_eq_true.mpr h2

/-- Elimination rule for `settledB`. -/
theorem settledB_elim {db : DB} {users : List Nat} {link : String}
    (h : settledB db users link = true) :
    ∃ i, ideaExistsByUrl db link = some i ∧ ∀ u ∈ users, pendingHas db u i = true := by
  rw [settledB, settledL] at h
  cases hf : findIdeaIdByUrl db.ideas link with
  | none =>
    rw [hf] at h
    exact absurd h (by simp)
  | some i =>
    rw [hf] at h
    exact ⟨i, hf, List.all_eq_true.mp h⟩

/-- Settledness survives appending rows. -/
theorem settledB_mono {d1 d2 : DB} {users : List Nat} {link : String}
    (h : settledB d1 users link = true) (hext : dbExtends d2 d1) :
    settledB d2 users link = true := by
  obtain ⟨i, hres, hall⟩ := settledB_elim h
  obtain ⟨⟨ti, hi⟩, ⟨tp, hp⟩⟩ := hext
  have h1 : ideaExistsByUrl d2 link = some i := by
    show findIdeaIdByUrl d2.ideas link = some i
    rw [hi]
    exact findIdeaIdByUrl_append_some hres
  refine settledB_intro h1 ?_
  intro u hu
  show pendingHasL d2.pending u i = true
  rw [hp]
  exact pendingHasL_append (hall u hu)

/-- Settledness reads only the ideas and pending tables. -/
theorem settledB_congr (d1 d2 : DB) (hi : d1.ideas = d2.ideas) (hp : d1.pending = d2.pending)
    (users : List Nat) (link : String) :
    settledB d1 users link = settledB d2 users link := by
  rw [settledB, settledB, hi, hp]

/-- Url resolution reads only the ideas table. -/
theorem ideaExists_congr (d1 d2 : DB) (h : d1.ideas = d2.ideas) (link : String) :
    ideaExistsByUrl d1 link = ideaExistsByUrl d2 link := by
  rw [ideaExistsByUrl, ideaExistsByUrl, h]

/-- The idempotent queue insert leaves the ideas table alone. -/
theorem addToUserPending_ideas (db : DB) (u i : Nat) (now : Int) :
    (addToUserPending db u i now).ideas = db.ideas := by
  rw [addToUserPending]
  split <;> rfl

/-- The idempotent queue insert leaves the id counter alone. -/
theorem addToUserPending_nextId (db : DB) (u i : Nat) (now : Int) :
    (addToUserPending db u i now).nextIdeaId = db.nextIdeaId := by
  rw [addToUserPending]
  split <;> rfl

/-- The idempotent queue insert only appends pending rows. -/
theorem addToUserPending_pending_extends (db : DB) (u i : Nat) (now : Int) :
    ∃ t, (addToUserPending db u i now).pending = db.pending ++ t := by
  rw [addToUserPending]
  split
  · exact ⟨[], (List.append_nil _).symm⟩
  · exact ⟨[⟨u, i, now⟩], rfl⟩

/-- After the idempotent queue insert the pair is present. -/
theorem addToUserPending_has (db : DB) (u i : Nat) (now : Int) :
    pendingHas (addToUserPending db u i now) u i = true := by
  rw [addToUserPending]
  split
  · next h => exact h
  · show pendingHasL (db.pending ++ [⟨u, i, now⟩]) u i = true
    rw [pendingHasL, List.any_append]
    simp [pendingHasL]

/-- The idempotent queue insert keeps every present pair present. -/
theorem addToUserPending_keeps {db : DB} {v j : Nat} (u i : Nat) (now : Int)
    (h : pendingHas db v j = true) : pendingHas (addToUserPending db u i now) v j = true := by
  obtain ⟨t, ht⟩ := addToUserPending_pending_extends db u i now
  show pendingHasL (addToUserPending db u i now).pending v j = true
  rw [ht]
  exact pendingHasL_append h

/-- The fan-out fold leaves the ideas table alone. -/
theorem fanout_ideas (users : List Nat) (db : DB) (i : Nat) (now : Int) :
    (users.foldl (fun d u => addToUserPending d u i now) db).ideas = db.ideas := by
  induction users generalizing db with
  | nil => rfl
  | cons u us ih => rw [List.foldl_cons, ih, addToUserPending_ideas]

/-- The fan-out fold leaves the id counter alone. -/
theorem fanout_nextId (users : List Nat) (db : DB) (i : Nat) (now : Int) :
    (users.foldl (fun d u => addToUserPending d u i now) db).nextIdeaId = db.nextIdeaId := by
  induction users generalizing db with
  | nil => rfl
  | cons u us ih => rw [List.foldl_cons, ih, addToUserPending_nextId]

/-- The fan-out fold only appends pending rows. -/
theorem fanout_pending_extends (users : List Nat) (db : DB) (i : Nat) (now : Int) :
    ∃ t, (users.foldl (fun d u => addToUserPending d u i now) db).pending = db.pending ++ t := by
  induction users generalizing db with
  | nil => exact ⟨[], (List.append_nil _).symm⟩
  | cons u us ih =>
    rw [List.foldl_cons]
    obtain ⟨t1, h1⟩ := addToUserPending_pending_extends db u i now
    obtain ⟨t2, h2⟩ := ih (addToUserPending db u i now)
    exact ⟨t1 ++ t2, by rw [h2, h1, List.append_assoc]⟩

/-- The fan-out fold keeps every present pair present. -/
theorem fanout_keeps (users : List Nat) {db : DB} {v j : Nat} (i : Nat) (now : Int)
    (h : pendingHas db v j = true) :
    pendingHas (users.foldl (fun d u => addToUserPending d u i now) db) v j = true := by
  induction users generalizing db with
  | nil => exact h
  | cons u us ih =>
    rw [List.foldl_cons]
    exact ih (addToUserPending_keeps u i now h)

/-- After the fan-out fold every listed subscriber has the pair. -/
theorem fanout_has (users : List Nat) (db : DB) (i : Nat) (now : Int) :
    ∀ u ∈ users,
      pendingHas (users.foldl (fun d v => addToUserPending d v i now) db) u i = true := by
  induction users generalizing db with
  | nil => intro u hu; cases hu
  | cons v vs ih =>
    intro u hu
    rw [List.foldl_cons]
    rcases List.mem_cons.mp hu with rfl | hu2
    · exact fanout_keeps vs i now (addToUserPending_has db u i now)
    · exact ih (addToUserPending db v i now) u hu2

/-- When every listed subscriber already has the pair, the fan-out fold
is the identity. -/
theorem fanout_of_all (users : List Nat) (db : DB) (i : Nat) (now : Int)
    (h : ∀ u ∈ users, pendingHas db u i = true) :
    users.foldl (fun d u => addToUserPending d u i now) db = db := by
  induction users with
  | nil => rfl
  | cons v vs ih =>
    rw [List.foldl_cons]
    have h1 : addToUserPending db v i now = db := by
      rw [addToUserPending, if_pos (h v (List.mem_cons_self v vs))]
    rw [h1]
    exact ih (fun u hu => h u (List.mem_cons_of_mem v hu))

/-- The per-item loop body when the url already resolves: no insert,
only fan-out. -/
theorem processItem_eq_found {feed : FeedFetch} {now : Int} {db : DB} {item : RSSItem} {i : Nat}
    (h : ideaExistsByUrl db item.link = some i) :
    processItem feed now db item =
      feed.userIds.foldl (fun d u => addToUserPending d u i now) db := by
  unfold processItem
  rw [h]

/-- The per-item loop body when the url is new: insert, then fan-out of
the fresh id. -/
theorem processItem_eq_new {feed : FeedFetch} {now : Int} {db : DB} {item : RSSItem}
    (h : ideaExistsByUrl db item.link = none) :
    processItem feed now db item =
      feed.userIds.foldl (fun d u => addToUserPending d u db.nextIdeaId now)
        (insertIdea db item.title feed.name
          (if item.description = "" then
            "New update from " ++ feed.name ++ ". Click to read more."
           else item.description)
          item.link feed.category feed.url item.pubDate now).1 := by
  unfold processItem
  rw [h]
  rfl

/-- After an insert for a previously unresolved url, the url resolves to
the fresh id. -/
theorem resolve_after_insert {db : DB} {url : String} (hwf : WFdb db)
    (h : ideaExistsByUrl db url = none) (title source summary category sourceFeed : String)
    (pub : Option Int) (now : Int) :
    ideaExistsByUrl (insertIdea db title source summary url category sourceFeed pub now).1 url =
      some db.nextIdeaId := by
  have hfind : db.ideas.find? (fun r => decide (r.url = some url)) = none := by
    rw [ideaExistsByUrl, findIdeaIdByUrl] at h
    cases hf : db.ideas.find? (fun r => decide (r.url = some url)) with
    | none => rfl
    | some r =>
      rw [hf] at h
      exfalso
      by_cases hz : r.id = 0
      · have hr : r ∈ db.ideas := List.mem_of_find?_eq_some hf
        have := hwf.2 r hr
        omega
      · have h2 : (if r.id = 0 then none else some r.id) = (none : Option Nat) := h
        rw [if_neg hz] at h2
        exact absurd h2 (by simp)
  show findIdeaIdByUrl (db.ideas ++
    [{ id := db.nextIdeaId, title := title, source := source, summary := summary,
       url := some url, category := some category, sourceFeed := some sourceFeed,
       contentType := inferContentType url source, publishedAt := pub,
       ingestedAt := now }]) url = some db.nextIdeaId
  rw [findIdeaIdByUrl, List.find?_append, hfind]
  rw [List.find?_cons_of_pos _ (by simp)]
  show (if db.nextIdeaId = 0 then none else some db.nextIdeaId) = some db.nextIdeaId
  rw [if_neg]
  have := hwf.1
  omega

/-- The insert preserves well-formedness. -/
theorem insertIdea_WF {db : DB} (hwf : WFdb db)
    (title source summary url category sourceFeed : String) (pub : Option Int) (now : Int) :
    WFdb (insertIdea db title source summary url category sourceFeed pub now).1 := by
  constructor
  · show 0 < db.nextIdeaId + 1
    omega
  · intro r hr
    rcases List.mem_append.mp hr with h | h
    · exact hwf.2 r h
    · have hr2 := List.mem_singleton.mp h
      rw [hr2]
      exact hwf.1

/-- The idempotent queue insert preserves well-formedness. -/
theorem addToUserPending_WF {db : DB} (hwf : WFdb db) (u i : Nat) (now : Int) :
    WFdb (addToUserPending db u i now) := by
  constructor
  · rw [addToUserPending_nextId]
    exact hwf.1
  · intro r hr
    rw [addToUserPending_ideas] at hr
    exact hwf.2 r hr

/-- The fan-out fold preserves well-formedness. -/
theorem fanout_WF (users : List Nat) {db : DB} (hwf : WFdb db) (i : Nat) (now : Int) :
    WFdb (users.foldl (fun d u => addToUserPending d u i now) db) := by
  induction users generalizing db with
  | nil => exact hwf
  | cons u us ih =>
    rw [List.foldl_cons]
    exact ih (addToUserPending_WF hwf u i now)

/-- The per-item loop body preserves well-formedness. -/
theorem processItem_WF {db : DB} (hwf : WFdb db) (feed : FeedFetch) (now : Int)
    (item : RSSItem) : WFdb (processItem feed now db item) := by
  cases hm : ideaExistsByUrl db item.link with
  | some i =>
    rw [processItem_eq_found hm]
    exact fanout_WF _ hwf i now
  | none =>
    rw [processItem_eq_new hm]
    exact fanout_WF _ (insertIdea_WF hwf _ _ _ _ _ _ _ _) db.nextIdeaId now

/-- The per-item loop body only appends ideas and pending rows. -/
theorem processItem_extends (feed : FeedFetch) (now : Int) (db : DB) (item : RSSItem) :
    dbExtends (processItem feed now db item) db := by
  cases hm : ideaExistsByUrl db item.link with
  | some i =>
    rw [processItem_eq_found hm]
    constructor
    · exact ⟨[], by rw [fanout_ideas, List.append_nil]⟩
    · exact fanout_pending_extends _ _ _ _
  | none =>
    rw [processItem_eq_new hm]
    constructor
    · exact ⟨_, by rw [fanout_ideas]; exact rfl⟩
    · obtain ⟨t, ht⟩ := fanout_pending_extends feed.userIds
        (insertIdea db item.title feed.name
          (if item.description = "" then
            "New update from " ++ feed.name ++ ". Click to read more."
           else item.description)
          item.link feed.category feed.url item.pubDate now).1 db.nextIdeaId now
      exact ⟨t, ht⟩

/-- The per-item loop body settles its own item. -/
theorem processItem_settles (feed : FeedFetch) (now : Int) (db : DB) (item : RSSItem)
    (hwf : WFdb db) :
    settledB (processItem feed now db item) feed.userIds item.link = true := by
  cases hm : ideaExistsByUrl db item.link with
  | some i =>
    rw [processItem_eq_found hm]
    have h1 : ideaExistsByUrl
        (feed.userIds.foldl (fun d u => addToUserPending d u i now) db) item.link = some i := by
      show findIdeaIdByUrl
        (feed.userIds.foldl (fun d u => addToUserPending d u i now) db).ideas item.link = some i
      rw [fanout_ideas]
      exact hm
    exact settledB_intro h1 (fun u hu => fanout_has _ _ _ _ u hu)
  | none =>
    rw [processItem_eq_new hm]
    have h1 : ideaExistsByUrl
        (feed.userIds.foldl (fun d u => addToUserPending d u db.nextIdeaId now)
          (insertIdea db item.title feed.name
            (if item.description = "" then
              "New update from " ++ feed.name ++ ". Click to read more."
             else item.description)
            item.link feed.category feed.url item.pubDate now).1) item.link =
        some db.nextIdeaId := by
      show findIdeaIdByUrl _ item.link = some db.nextIdeaId
      rw [fanout_ideas]
      exact resolve_after_insert hwf hm _ _ _ _ _ item.pubDate now
    exact settledB_intro h1 (fun u hu => fanout_has _ _ _ _ u hu)

/-- The per-item loop body is the identity on an already settled item. -/
theorem processItem_of_settled {feed : FeedFetch} {now : Int} {db : DB} {item : RSSItem}
    (h : settledB db feed.userIds item.link = true) :
    processItem feed now db item = db := by
  obtain ⟨i, hres, hall⟩ := settledB_elim h
  rw [processItem_eq_found hres]
  exact fanout_of_all _ _ _ _ hall

/-- The feed iteration when the fetch yields no items. -/
theorem feedStep_of_empty {now : Int} {db : DB} {feed : FeedFetch}
    (h : (fetchRSS feed.outcome).1 = []) :
    feedStep now db feed = markFetched db feed.url now := by
  rw [feedStep, h]
  rfl

/-- The feed iteration when the fetch yields items. -/
theorem feedStep_of_nonempty {now : Int} {db : DB} {feed : FeedFetch}
    (h : ¬(fetchRSS feed.outcome).1.isEmpty = true) :
    feedStep now db feed =
      markFetchedClearErr
        ((sortedCandidates now (fetchRSS feed.outcome).1).foldl (processItem feed now) db)
        feed.url now := by
  rw [feedStep, if_neg h]

/-- The item fold only appends ideas and pending rows. -/
theorem foldl_process_extends (feed : FeedFetch) (now : Int) (items : List RSSItem) :
    ∀ db : DB, dbExtends (items.foldl (processItem feed now) db) db := by
  induction items with
  | nil => exact fun db => dbExtends_refl db
  | cons it its ih =>
    intro db
    rw [List.foldl_cons]
    exact dbExtends_trans (processItem_extends feed now db it) (ih (processItem feed now db it))

/-- The item fold preserves well-formedness. -/
theorem foldl_process_WF (feed : FeedFetch) (now : Int) (items : List RSSItem) :
    ∀ db : DB, WFdb db → WFdb (items.foldl (processItem feed now) db) := by
  induction items with
  | nil => exact fun db hwf => hwf
  | cons it its ih =>
    intro db hwf
    rw [List.foldl_cons]
    exact ih _ (processItem_WF hwf feed now it)

/-- The item fold settles every processed item. -/
theorem foldl_process_settles (feed : FeedFetch) (now : Int) (items : List RSSItem) :
    ∀ db : DB, WFdb db → ∀ it ∈ items,
      settledB (items.foldl (processItem feed now) db) feed.userIds it.link = true := by
  induction items with
  | nil => intro db hwf it hit; cases hit
  | cons c cs ih =>
    intro db hwf it hit
    rw [List.foldl_cons]
    rcases List.mem_cons.mp hit with rfl | hit2
    · exact settledB_mono (processItem_settles feed now db it hwf)
        (foldl_process_extends feed now cs _)
    · exact ih _ (processItem_WF hwf feed now c) it hit2

/-- The item fold is the identity when every item is settled. -/
theorem foldl_process_fixed (feed : FeedFetch) (now : Int) (items : List RSSItem) :
    ∀ db : DB, (∀ it ∈ items, settledB db feed.userIds it.link = true) →
      items.foldl (processItem feed now) db = db := by
  induction items with
  | nil => intro db _; rfl
  | cons c cs ih =>
    intro db h
    rw [List.foldl_cons, processItem_of_settled (h c (List.mem_cons_self c cs))]
    exact ih db (fun it hit => h it (List.mem_cons_of_mem c hit))

/-- The item fold inserts nothing when every item's url already
resolves. -/
theorem foldl_process_no_new (feed : FeedFetch) (now : Int) (items : List RSSItem) :
    ∀ db : DB, (∀ it ∈ items, (ideaExistsByUrl db it.link).isSome = true) →
      (items.foldl (processItem feed now) db).ideas = db.ideas ∧
        (items.foldl (processItem feed now) db).nextIdeaId = db.nextIdeaId := by
  induction items with
  | nil => intro db _; exact ⟨rfl, rfl⟩
  | cons c cs ih =>
    intro db h
    obtain ⟨i, hi⟩ := Option.isSome_iff_exists.mp (h c (List.mem_cons_self c cs))
    rw [List.foldl_cons, processItem_eq_found hi]
    have hideas := fanout_ideas feed.userIds db i now
    have hnext := fanout_nextId feed.userIds db i now
    have hrest := ih (feed.userIds.foldl (fun d u => addToUserPending d u i now) db) ?_
    · exact ⟨hrest.1.trans hideas, hrest.2.trans hnext⟩
    · intro it hit
      rw [ideaExists_congr _ db hideas it.link]
      exact h it (List.mem_cons_of_mem c hit)

/-- The feed iteration preserves well-formedness. -/
theorem feedStep_WF {db : DB} (hwf : WFdb db) (now : Int) (feed : FeedFetch) :
    WFdb (feedStep now db feed) := by
  by_cases h : (fetchRSS feed.outcome).1.isEmpty = true
  · rw [feedStep_of_empty (List.isEmpty_iff.mp h)]
    exact hwf
  · rw [feedStep_of_nonempty h]
    exact foldl_process_WF feed now _ db hwf

/-- The feed iteration only appends ideas and pending rows. -/
theorem feedStep_extends (now : Int) (db : DB) (feed : FeedFetch) :
    dbExtends (feedStep now db feed) db := by
  by_cases h : (fetchRSS feed.outcome).1.isEmpty = true
  · rw [feedStep_of_empty (List.isEmpty_iff.mp h)]
    exact dbExtends_refl db
  · rw [feedStep_of_nonempty h]
    obtain ⟨⟨ti, hi⟩, ⟨tp, hp⟩⟩ := foldl_process_extends feed now
      (sortedCandidates now (fetchRSS feed.outcome).1) db
    exact ⟨⟨ti, hi⟩, ⟨tp, hp⟩⟩

/-- The feed iteration settles every candidate of its feed. -/
theorem feedStep_settles (now : Int) (db : DB) (feed : FeedFetch) (hwf : WFdb db) :
    ∀ it ∈ candsOf now feed, settledB (feedStep now db feed) feed.userIds it.link = true := by
  intro it hit
  by_cases h : (fetchRSS feed.outcome).1.isEmpty = true
  · exfalso
    rw [candsOf, List.isEmpty_iff.mp h] at hit
    exact List.not_mem_nil it hit
  · rw [feedStep_of_nonempty h]
    have h1 := foldl_process_settles feed now (sortedCandidates now (fetchRSS feed.outcome).1)
      db hwf it hit
    rw [settledB_congr
      (markFetchedClearErr
        ((sortedCandidates now (fetchRSS feed.outcome).1).foldl (processItem feed now) db)
        feed.url now)
      ((sortedCandidates now (fetchRSS feed.outcome).1).foldl (processItem feed now) db)
      rfl rfl feed.userIds it.link]
    exact h1

/-- When every candidate of the feed is settled, the feed iteration
leaves ideas, pending and the id counter unchanged. -/
theorem feedStep_fixed (now : Int) (db : DB) (feed : FeedFetch)
    (h : ∀ it ∈ candsOf now feed, settledB db feed.userIds it.link = true) :
    (feedStep now db feed).ideas = db.ideas ∧ (feedStep now db feed).pending = db.pending ∧
      (feedStep now db feed).nextIdeaId = db.nextIdeaId := by
  by_cases he : (fetchRSS feed.outcome).1.isEmpty = true
  · rw [feedStep_of_empty (List.isEmpty_iff.mp he)]
    exact ⟨rfl, rfl, rfl⟩
  · rw [feedStep_of_nonempty he]
    rw [foldl_process_fixed feed now (sortedCandidates now (fetchRSS feed.outcome).1) db h]
    exact ⟨rfl, rfl, rfl⟩

/-- When every candidate of the feed resolves, the feed iteration
inserts no ideas. -/
theorem feedStep_no_new (now : Int) (db : DB) (feed : FeedFetch)
    (h : ∀ it ∈ candsOf now feed, (ideaExistsByUrl db it.link).isSome = true) :
    (feedStep now db feed).ideas = db.ideas ∧
      (feedStep now db feed).nextIdeaId = db.nextIdeaId := by
  by_cases he : (fetchRSS feed.outcome).1.isEmpty = true
  · rw [feedStep_of_empty (List.isEmpty_iff.mp he)]
    exact ⟨rfl, rfl⟩
  · rw [feedStep_of_nonempty he]
    have := foldl_process_no_new feed now (sortedCandidates now (fetchRSS feed.outcome).1) db h
    exact ⟨this.1, this.2⟩

/-- The feed loop preserves well-formedness. -/
theorem ingestLoop_WF (now : Int) (feeds : List FeedFetch) :
    ∀ db : DB, WFdb db → WFdb (ingestLoop now feeds db) := by
  induction feeds with
  | nil => exact fun db hwf => hwf
  | cons f fs ih =>
    intro db hwf
    rw [ingestLoop, List.foldl_cons]
    exact ih (feedStep now db f) (feedStep_WF hwf now f)

/-- The feed loop only appends ideas and pending rows. -/
theorem ingestLoop_extends (now : Int) (feeds : List FeedFetch) :
    ∀ db : DB, dbExtends (ingestLoop now feeds db) db := by
  induction feeds with
  | nil => exact fun db => dbExtends_refl db
  | cons f fs ih =>
    intro db
    rw [ingestLoop, List.foldl_cons]
    exact dbExtends_trans (feedStep_extends now db f) (ih (feedStep now db f))

/-- After one feed loop, every candidate of every feed is settled. -/
theorem ingestLoop_settles (now : Int) (feeds : List FeedFetch) :
    ∀ db : DB, WFdb db → ∀ f ∈ feeds, ∀ it ∈ candsOf now f,
      settledB (ingestLoop now feeds db) f.userIds it.link = true := by
  induction feeds with
  | nil => intro db hwf f hf; cases hf
  | cons f0 fs ih =>
    intro db hwf f hf it hit
    rw [ingestLoop, List.foldl_cons]
    rcases List.mem_cons.mp hf with rfl | hf2
    · exact settledB_mono (feedStep_settles now db f hwf it hit)
        (ingestLoop_extends now fs (feedStep now db f))
    · exact ih (feedStep now db f0) (feedStep_WF hwf now f0) f hf2 it hit

/-- When every candidate of every feed is settled, the feed loop leaves
ideas, pending and the id counter unchanged. -/
theorem ingestLoop_fixed (now : Int) (feeds : List FeedFetch) :
    ∀ db : DB, (∀ f ∈ feeds, ∀ it ∈ candsOf now f, settledB db f.userIds it.link = true) →
      (ingestLoop now feeds db).ideas = db.ideas ∧
        (ingestLoop now feeds db).pending = db.pending ∧
        (ingestLoop now feeds db).nextIdeaId = db.nextIdeaId := by
  induction feeds with
  | nil => intro db _; exact ⟨rfl, rfl, rfl⟩
  | cons f0 fs ih =>
    intro db h
    have h0 := feedStep_fixed now db f0 (h f0 (List.mem_cons_self f0 fs))
    rw [ingestLoop, List.foldl_cons]
    have hrest := ih (feedStep now db f0) ?_
    · exact ⟨hrest.1.trans h0.1, hrest.2.1.trans h0.2.1, hrest.2.2.trans h0.2.2⟩
    · intro f hf it hit
      rw [settledB_congr (feedStep now db f0) db h0.1 h0.2.1 f.userIds it.link]
      exact h f (List.mem_cons_of_mem f0 hf) it hit

/-- When every candidate of every feed resolves, the feed loop inserts
no ideas. -/
theorem ingestLoop_no_new (now : Int) (feeds : List FeedFetch) :
    ∀ db : DB, (∀ f ∈ feeds, ∀ it ∈ candsOf now f, (ideaExistsByUrl db it.link).isSome = true) →
      (ingestLoop now feeds db).ideas = db.ideas ∧
        (ingestLoop now feeds db).nextIdeaId = db.nextIdeaId := by
  induction feeds with
  | nil => intro db _; exact ⟨rfl, rfl⟩
  | cons f0 fs ih =>
    intro db h
    have h0 := feedStep_no_new now db f0 (h f0 (List.mem_cons_self f0 fs))
    rw [ingestLoop, List.foldl_cons]
    have hrest := ih (feedStep now db f0) ?_
    · exact ⟨hrest.1.trans h0.1, hrest.2.trans h0.2⟩
    · intro f hf it hit
      rw [ideaExists_congr (feedStep now db f0) db h0.1 it.link]
      exact h f (List.mem_cons_of_mem f0 hf) it hit

/-- C3 counterexample initial store: idea 1 (url `https://ex.com/p`,
stored 8 days ago) with an 8-day-old undecided queue entry for
subscriber 1, no decisions. -/
def c3row : IdeaRow :=
  { id := 1, title := "Old title", source := "Feed", summary := "s",
    url := some "https://ex.com/p", category := some "tech",
    sourceFeed := some "https://ex.com/rss", contentType := "article",
    publishedAt := some (-691200000), ingestedAt := -691200000 }

/-- C3 counterexample store assembled from `c3row`. -/
def c3db : DB :=
  { nextIdeaId := 2, ideas := [c3row], pending := [⟨1, 1, -691200000⟩],
    swipes := [], feeds := [] }

/-- C3 counterexample feed: the unchanged document still lists the same
canonical url, now carrying a bumped publish date one hour old. -/
def c3feed : FeedFetch :=
  { url := "https://ex.com/rss", name := "Feed", category := "tech", userIds := [1],
    outcome := .response 200 [⟨"Fresh title", "https://ex.com/p", "d", some (-3600000)⟩] }

/-- C3 counterexample: re-running the full pass (feed loop plus sweep)
over the unchanged feed document is not always free of new QueueEntries
— the first pass's sweep prunes the 8-day-old undecided entry while the
item is still inside the 24-hour candidate window (its publish date was
bumped in the feed), so the second pass re-creates the (1, 1) entry. -/
theorem C3_counterexample_sweep_then_requeue :
    (⟨1, 1, 0⟩ : PendingRow) ∈
      (ingestPass 0 [c3feed] (ingestPass 0 [c3feed] c3db)).pending ∧
    (⟨1, 1, 0⟩ : PendingRow) ∉ (ingestPass 0 [c3feed] c3db).pending ∧
    (ingestPass 0 [c3feed] c3db).pending = [] := by
  refine ⟨by decide, by decide, by decide⟩

/-- C3 (amended): for a well-formed store, a second full pass over
unchanged feed documents creates zero new Items unconditionally; it also
creates zero new QueueEntries provided the first pass's retention sweep
removed no queue pair of a still-candidate item (every candidate is
still settled after the first pass) — without that proviso the sweep can
delete a stale undecided entry whose item re-entered the 24-hour window
and the second pass re-creates it. -/
theorem C3_second_pass_adds_nothing :
    ∀ (now : Int) (feeds : List FeedFetch) (db : DB),
      WFdb db →
      (ingestPass now feeds (ingestPass now feeds db)).ideas =
        (ingestPass now feeds db).ideas ∧
      ((∀ f ∈ feeds, ∀ it ∈ candsOf now f,
          settledB (ingestPass now feeds db) f.userIds it.link = true) →
        ∀ p ∈ (ingestPass now feeds (ingestPass now feeds db)).pending,
          p ∈ (ingestPass now feeds db).pending) := by
  intro now feeds db hwf
  constructor
  · have hsettled := ingestLoop_settles now feeds db hwf
    have hres : ∀ f ∈ feeds, ∀ it ∈ candsOf now f,
        (ideaExistsByUrl (ingestPass now feeds db) it.link).isSome = true := by
      intro f hf it hit
      obtain ⟨i, hi, -⟩ := settledB_elim (hsettled f hf it hit)
      have hcongr : ideaExistsByUrl (ingestPass now feeds db) it.link =
          ideaExistsByUrl (ingestLoop now feeds db) it.link :=
        ideaExists_congr _ _ rfl it.link
      rw [hcongr, hi]
      rfl
    have h2 := ingestLoop_no_new now feeds (ingestPass now feeds db) hres
    exact h2.1
  · intro hsettled2 p hp
    have hfix := ingestLoop_fixed now feeds (ingestPass now feeds db) hsettled2
    have hp2 : p ∈ (ingestLoop now feeds (ingestPass now feeds db)).pending :=
      (List.mem_filter.mp hp).1
    rw [hfix.2.1] at hp2
    exact hp2

/-- C3 witness: the theorem applied to a concrete store and feed — with
one fresh item fanned out to subscriber 1 by the first pass, the second
pass leaves the ideas table identical and adds no queue entry. -/
theorem C3_witness :
    (ingestPass 0 [⟨"https://ex.com/rss", "Feed", "tech", [1],
        .response 200 [⟨"T", "https://ex.com/p", "d", some (-3600000)⟩]⟩]
      (ingestPass 0 [⟨"https://ex.com/rss", "Feed", "tech", [1],
        .response 200 [⟨"T", "https://ex.com/p", "d", some (-3600000)⟩]⟩]
        ⟨1, [], [], [], []⟩)).ideas =
      (ingestPass 0 [⟨"https://ex.com/rss", "Feed", "tech", [1],
        .response 200 [⟨"T", "https://ex.com/p", "d", some (-3600000)⟩]⟩]
        ⟨1, [], [], [], []⟩).ideas ∧
    ∀ p ∈ (ingestPass 0 [⟨"https://ex.com/rss", "Feed", "tech", [1],
        .response 200 [⟨"T", "https://ex.com/p", "d", some (-3600000)⟩]⟩]
      (ingestPass 0 [⟨"https://ex.com/rss", "Feed", "tech", [1],
        .response 200 [⟨"T", "https://ex.com/p", "d", some (-3600000)⟩]⟩]
        ⟨1, [], [], [], []⟩)).pending,
      p ∈ (ingestPass 0 [⟨"https://ex.com/rss", "Feed", "tech", [1],
        .response 200 [⟨"T", "https://ex.com/p", "d", some (-3600000)⟩]⟩]
        ⟨1, [], [], [], []⟩).pending := by
  have h := C3_second_pass_adds_nothing 0
    [⟨"https://ex.com/rss", "Feed", "tech", [1],
      .response 200 [⟨"T", "https://ex.com/p", "d", some (-3600000)⟩]⟩]
    ⟨1, [], [], [], []⟩ (by constructor <;> decide)
  exact ⟨h.1, h.2 (by decide)⟩

end IdeaTinder
